import Mathlib

/-!
Verification of the static-site build pipeline in `build/build.py` and the
development server in `build/dev_server.py`.

The embedding is shallow: the filesystem trees handed to the build are finite
`Entry` trees, Python strings are Lean `String`s restricted to `'\n'` line
separators, Python's `dict` is an insertion-ordered association list, fallible
code returns `Except`, and the `sha256` accumulator is modelled by the exact
byte stream fed to it (`hashlib`, `mistune` and `jinja2` are external
collaborators; the two template renderers and the markdown renderer are
abstract functions threaded in as a `Collab` record).
-/

namespace SiteBuild

/-- Python's `str.strip()` whitespace set (ASCII part): space, tab, newline,
carriage return, vertical tab, form feed. -/
def isPySpace (c : Char) : Bool :=
  c == ' ' || c == '\t' || c == '\n' || c == '\r' || c == Char.ofNat 11 || c == Char.ofNat 12

/-- Python's `str.strip()` with no argument (model restricted to ASCII
whitespace, which is all the repository's pages use). -/
def pyStrip (s : String) : String :=
  String.mk (((s.data.dropWhile isPySpace).reverse.dropWhile isPySpace).reverse)

/-- Helper for `splitlines`: split a character list at every `'\n'`. -/
def splitLinesAux : List Char → List Char → List String
  | [], acc => [String.mk acc.reverse]
  | c :: rest, acc =>
      if c = '\n' then String.mk acc.reverse :: splitLinesAux rest []
      else splitLinesAux rest (c :: acc)

/-- Python's `str.splitlines()` for texts whose only line separator is `'\n'`:
the empty string yields `[]`, and a trailing newline does not produce a final
empty line. -/
def splitlines (s : String) : List String :=
  if s.data = [] then []
  else
    let parts := splitLinesAux s.data []
    if parts.getLast? = some "" then parts.dropLast else parts

/-- Helper for `splitFirstColon`. -/
def splitColonAux : List Char → List Char → Option (String × String)
  | [], _ => none
  | c :: rest, acc =>
      if c = ':' then some (String.mk acc.reverse, String.mk rest)
      else splitColonAux rest (c :: acc)

/-- Python's `line.split(":", 1)` as used by `_parse_front_matter`: `none`
models the `ValueError` raised when unpacking a colon-free line into
`key, value`. -/
def splitFirstColon (s : String) : Option (String × String) :=
  splitColonAux s.data []

/-- Python's `"\n".join(lines)`. -/
def joinLines : List String → String
  | [] => ""
  | [l] => l
  | l :: l' :: ls => l ++ "\n" ++ joinLines (l' :: ls)

/-- Python's `"/".join`-style rendering of a relative path, as
`Path.as_posix` produces for a non-trivial relative path. -/
def joinSlash : List String → String
  | [] => ""
  | [p] => p
  | p :: p' :: ps => p ++ "/" ++ joinSlash (p' :: ps)

/-- Python `dict` as an insertion-ordered association list: front matter keys
map to values, a repeated key overwrites its value in place. -/
abbrev FrontMatter := List (String × String)

/-- Python `dict.__setitem__`. -/
def dictInsert : FrontMatter → String → String → FrontMatter
  | [], k, v => [(k, v)]
  | (k', v') :: rest, k, v =>
      if k' = k then (k, v) :: rest else (k', v') :: dictInsert rest k v

/-- Python `dict.get` / `dict.__getitem__` lookup. -/
def dictGet? : FrontMatter → String → Option String
  | [], _ => none
  | (k', v') :: rest, k => if k' = k then some v' else dictGet? rest k

/-- The ways `build.py` fails: each constructor is one `raise`/implicit
exception site. `indexOutOfRange` is Python's `IndexError` from an unchecked
`lines[i]`; `noColonInLine` is the `ValueError` from unpacking
`line.split(":", 1)`; `missingKey` is a `KeyError` on the front-matter dict;
`invalidPageType` is the `ValueError` from `_PageType(value)`;
`assertFailed` is an `AssertionError` from `_PageMetadata.__post_init__`. -/
inductive BuildError where
  | missingFrontMatter (srcPath : List String)
  | indexOutOfRange
  | noColonInLine (line : String)
  | missingKey (key : String)
  | invalidPageType (value : String)
  | assertFailed (msg : String)
deriving DecidableEq

instance instDecEqExcept {ε α : Type} [DecidableEq ε] [DecidableEq α] :
    DecidableEq (Except ε α) := fun a b =>
  match a, b with
  | .error e, .error f =>
      if h : e = f then .isTrue (by rw [h])
      else .isFalse (fun hh => h (by cases hh; rfl))
  | .error _, .ok _ => .isFalse (fun h => nomatch h)
  | .ok _, .error _ => .isFalse (fun h => nomatch h)
  | .ok x, .ok y =>
      if h : x = y then .isTrue (by rw [h])
      else .isFalse (fun hh => h (by cases hh; rfl))

/-- The front-matter delimiter sentinel `FRONT_MATTER_DELIM = "---"`. -/
def FRONT_MATTER_DELIM : String := "---"

/-- The fixed page filename `INDEX_MD = "index.md"`. -/
def INDEX_MD : String := "index.md"

/-- The fixed authoring-notes filename `NOTES_MD = "notes.md"`. -/
def NOTES_MD : String := "notes.md"

/-- The `while lines[i] != FRONT_MATTER_DELIM` loop of `_parse_front_matter`,
walking the lines after the opening delimiter. Reaching the end of the list is
exactly Python's out-of-range `lines[i]` access. On the closing delimiter it
returns the accumulated dict together with the lines strictly after it. -/
def parseFMLoop (acc : FrontMatter) : List String → Except BuildError (FrontMatter × List String)
  | [] => .error .indexOutOfRange
  | l :: ls =>
      if l = FRONT_MATTER_DELIM then .ok (acc, ls)
      else
        match splitFirstColon l with
        | none => .error (.noColonInLine l)
        | some kv => parseFMLoop (dictInsert acc (pyStrip kv.1) (pyStrip kv.2)) ls

/-- `_parse_front_matter(src_path, md_content)` from `build/build.py`:
`lines[0]` on an empty split is an `IndexError`; a first line other than the
delimiter raises the missing-front-matter `ValueError` naming the path;
otherwise the loop scans for the closing delimiter and the body is the lines
strictly after it rejoined with `"\n"`. -/
def parseFrontMatter (srcPath : List String) (mdContent : String) :
    Except BuildError (FrontMatter × String) :=
  match splitlines mdContent with
  | [] => .error .indexOutOfRange
  | l0 :: rest =>
      if l0 = FRONT_MATTER_DELIM then
        match parseFMLoop [] rest with
        | .error e => .error e
        | .ok (fm, body) => .ok (fm, joinLines body)
      else .error (.missingFrontMatter srcPath)

/-- `_PageType` enum. -/
inductive PageType where
  | index
  | blog_post
deriving DecidableEq

/-- `_PageType(value)`: enum lookup by value, `ValueError` otherwise. -/
def pageTypeOfValue (s : String) : Except BuildError PageType :=
  if s = "index" then .ok PageType.index
  else if s = "blog_post" then .ok PageType.blog_post
  else .error (.invalidPageType s)

/-- `DATE_RE = re.compile(r"\d{4}-\d{2}-\d{2}")` used through `DATE_RE.match`:
`re.match` anchors at the START of the string only, so this accepts any string
with a digit4-dash-digit2-dash-digit2 prefix, trailing characters included. -/
def dateReMatch (s : String) : Bool :=
  match s.data with
  | y1 :: y2 :: y3 :: y4 :: h1 :: m1 :: m2 :: h2 :: d1 :: d2 :: _ =>
      y1.isDigit && y2.isDigit && y3.isDigit && y4.isDigit &&
      h1 == '-' && m1.isDigit && m2.isDigit && h2 == '-' &&
      d1.isDigit && d2.isDigit
  | _ => false

/-- `_PageMetadata` record (href, page_type, title, optional date). -/
structure PageMetadata where
  href : String
  page_type : PageType
  title : String
  date : Option String
deriving DecidableEq

/-- `_PageMetadata(...)` construction including `__post_init__`: asserts a
non-empty href, a non-empty title, and for `blog_post` pages a present date
with `DATE_RE.match(date)` truthy, in that order. -/
def mkPageMetadata (href : String) (pt : PageType) (title : String) (date : Option String) :
    Except BuildError PageMetadata :=
  if href = "" then .error (.assertFailed "Page must have an href")
  else if title = "" then .error (.assertFailed "Page must have a title")
  else if pt = PageType.blog_post then
    match date with
    | none => .error (.assertFailed "Blog post must have a date")
    | some d =>
        if dateReMatch d then .ok ⟨href, pt, title, date⟩
        else .error (.assertFailed "Blog post date must be in the format YYYY-MM-DD")
  else .ok ⟨href, pt, title, date⟩

/- A filesystem entry as the build observes it: a regular file with its text
content, or a directory with its children listed in the iteration order
`Path.iterdir` happens to produce. Claims quantifying over sibling order
quantify over this list's order. -/
mutual
inductive Entry where
  | file (name content : String) : Entry
  | dir (name : String) (children : EntryList) : Entry
inductive EntryList where
  | nil : EntryList
  | cons (e : Entry) (es : EntryList) : EntryList
end

/-- Membership of an entry in a directory listing. -/
inductive MemE : Entry → EntryList → Prop
  | head (e : Entry) (es : EntryList) : MemE e (.cons e es)
  | tail (e e' : Entry) (es : EntryList) : MemE e es → MemE e (.cons e' es)

/-- `_is_dotfile`: `path.name.startswith(".")`. -/
def isDotName (s : String) : Bool :=
  match s.data with
  | '.' :: _ => true
  | _ => false

/-- One observable filesystem mutation of the output (`dist`) tree. Paths are
component lists relative to `dist` (for destinations) or relative to the
source tree being walked (for sources). `shaWrite` is the final write of
`dist/sha256.txt` carrying the digest. -/
inductive WriteEvent where
  | mkdirEvent (dst : List String)
  | copyAsset (dst src : List String)
  | copyPage (dst src : List String)
  | pageWrite (dst src : List String) (content : String)
  | shaWrite (digest : String)
deriving DecidableEq

/-- The mutable part of `_BuildContext`: the discovered blog-post metadata
list, the byte stream fed to the running `sha256` accumulator (chunk by
chunk, in order), and the trace of output writes performed so far. -/
structure BuildState where
  blogPosts : List PageMetadata
  shaData : List String
  writes : List WriteEvent
deriving DecidableEq

/-- The external collaborators (spec §1 treats them as pure functions):
`mistune.html`, the base template `render(title, env, date, content)`, and the
blog-index template `render(blog_posts=...)`. -/
structure Collab where
  markdownHtml : String → String
  renderBase : String → String → Option String → String → String
  renderBlogIndex : List PageMetadata → String

/-- Append one write event. -/
def addWrite (w : WriteEvent) (st : BuildState) : BuildState :=
  { st with writes := st.writes ++ [w] }

/-- The href f-string of `_gen_page`:
`f"/{src_path.parent.relative_to(ctx.pages_path).as_posix()}/"`; for a page
directly in `pages/` the relative path renders as `"."`. -/
def hrefOf (srcDir : List String) : String :=
  "/" ++ (if srcDir = [] then "." else joinSlash srcDir) ++ "/"

/-- The pure error-or-metadata pipeline of `_gen_page` for a page source file:
parse the front matter, look up and convert `page_type`, look up `title`,
construct `_PageMetadata` (running its `__post_init__` asserts). Returns the
metadata together with the markdown body. `srcDir` is the page's directory
relative to `pages/`. -/
def pageMeta (srcDir : List String) (content : String) :
    Except BuildError (PageMetadata × String) :=
  match parseFrontMatter (srcDir ++ [INDEX_MD]) content with
  | .error e => .error e
  | .ok (fm, md) =>
      match dictGet? fm "page_type" with
      | none => .error (.missingKey "page_type")
      | some pts =>
          match pageTypeOfValue pts with
          | .error e => .error e
          | .ok pt =>
              match dictGet? fm "title" with
              | none => .error (.missingKey "title")
              | some title =>
                  match mkPageMetadata (hrefOf srcDir) pt title (dictGet? fm "date") with
                  | .error e => .error e
                  | .ok meta => .ok (meta, md)

/-- `_gen_page(ctx, src_path)` for `src_path = pages/<srcDir>/index.md`:
build the metadata, append it to `ctx.blog_posts` when it is a blog post,
render the markdown, append the blog-index rendering when the page's parent
directory is exactly `pages/blog`, merge into the base template, feed the
final page into the hash accumulator, and write
`dist/<srcDir>/index.html`. A failure carries the state reached so far. -/
def genPage (c : Collab) (env : String) (srcDir : List String) (content : String)
    (st : BuildState) : Except (BuildState × BuildError) BuildState :=
  match pageMeta srcDir content with
  | .error e => .error (st, e)
  | .ok (meta, md) =>
      let st1 := if meta.page_type = PageType.blog_post then
                   { st with blogPosts := st.blogPosts ++ [meta] }
                 else st
      let html := c.markdownHtml md
      let html1 := if srcDir = ["blog"] then html ++ c.renderBlogIndex st1.blogPosts else html
      let page := c.renderBase meta.title env meta.date html1
      .ok { st1 with
              shaData := st1.shaData ++ [page],
              writes := st1.writes ++ [.pageWrite (srcDir ++ ["index.html"]) (srcDir ++ [INDEX_MD]) page] }

/-- The second loop of `_gen_pages`: process the regular files collected from
one directory, in iteration order. `index.md` is generated, `notes.md` is
skipped, anything else is copied to the mirrored output path. -/
def genFiles (c : Collab) (env : String) (srcDir : List String) :
    List (String × String) → BuildState → Except (BuildState × BuildError) BuildState
  | [], st => .ok st
  | (n, cont) :: rest, st =>
      if n = INDEX_MD then
        match genPage c env srcDir cont st with
        | .error e => .error e
        | .ok st' => genFiles c env srcDir rest st'
      else if n = NOTES_MD then genFiles c env srcDir rest st
      else genFiles c env srcDir rest (addWrite (.copyPage (srcDir ++ [n]) (srcDir ++ [n])) st)

/-- The `iterdir` loop of `_gen_pages`: dot-named entries are skipped
entirely; each non-hidden subdirectory is recursed into on the spot (the
recursive `_gen_pages` call ensures the mirrored directory, runs its own
iteration, then its own file loop); non-hidden regular files are collected
for this directory's file loop, which the caller runs afterwards. -/
def genIter (c : Collab) (env : String) (srcDir : List String) :
    EntryList → BuildState → List (String × String) →
    Except (BuildState × BuildError) (BuildState × List (String × String))
  | .nil, st, files => .ok (st, files)
  | .cons (.file n cont) rest, st, files =>
      if isDotName n then genIter c env srcDir rest st files
      else genIter c env srcDir rest st (files ++ [(n, cont)])
  | .cons (.dir n cs) rest, st, files =>
      if isDotName n then genIter c env srcDir rest st files
      else
        match genIter c env (srcDir ++ [n]) cs (addWrite (.mkdirEvent (srcDir ++ [n])) st) [] with
        | .error e => .error e
        | .ok (st2, fls) =>
            match genFiles c env (srcDir ++ [n]) fls st2 with
            | .error e => .error e
            | .ok st3 => genIter c env srcDir rest st3 files

/-- `_gen_pages(ctx)` on the whole `pages/` tree: ensure the output root,
iterate (recursing into subdirectories), then process the root's own files. -/
def genPages (c : Collab) (env : String) (pages : EntryList) (st : BuildState) :
    Except (BuildState × BuildError) BuildState :=
  match genIter c env [] pages (addWrite (.mkdirEvent []) st) [] with
  | .error e => .error e
  | .ok (st', fls) => genFiles c env [] fls st'

/-- The `iterdir` walk of `_copy_assets`: dot-named entries are skipped,
regular files are copied to the mirrored path, subdirectories are walked with
their mirrored directory ensured first. The source walks with an explicit
LIFO stack of directories; only the relative order of sibling directories
differs here, which spec §4.4 leaves unspecified and no claim depends on. -/
def copyIter (srcDir : List String) : EntryList → BuildState → BuildState
  | .nil, st => st
  | .cons (.file n _) rest, st =>
      if isDotName n then copyIter srcDir rest st
      else copyIter srcDir rest (addWrite (.copyAsset (srcDir ++ [n]) (srcDir ++ [n])) st)
  | .cons (.dir n cs) rest, st =>
      if isDotName n then copyIter srcDir rest st
      else copyIter srcDir rest
        (copyIter (srcDir ++ [n]) cs (addWrite (.mkdirEvent (srcDir ++ [n])) st))

/-- `_copy_assets(ctx)`: ensure `dist`, then walk the assets tree. -/
def copyAssets (assets : EntryList) (st : BuildState) : BuildState :=
  copyIter [] assets (addWrite (.mkdirEvent []) st)

/-- The digest of the running hash: `hexdigest` of a `sha256` accumulator
depends exactly on the concatenation of the chunks fed to `update`, so the
digest is modelled by that concatenated stream (an ideal injective hash). -/
def concatChunks : List String → String
  | [] => ""
  | s :: r => s ++ concatChunks r

/-- `build(env)` from `build/build.py`, on a freshly cleaned `dist`
(`_clean_dist` removed any previous output; `_assert_project_root` is a check
of the process's working directory, outside the modelled tree): copy assets,
generate pages, and only on success write `dist/sha256.txt` with the digest.
The result is the trace of output writes (the writes performed before a
failure remain) and the error, if any, that aborted the build. -/
def build (c : Collab) (env : String) (assets pages : EntryList) :
    List WriteEvent × Option BuildError :=
  let st0 : BuildState := ⟨[], [], []⟩
  let st1 := copyAssets assets st0
  match genPages c env pages st1 with
  | .error (st, e) => (st.writes, some e)
  | .ok st => (st.writes ++ [.shaWrite (concatChunks st.shaData)], none)

/-- The regular files `_gen_pages` collects from one directory listing, in
iteration order: non-hidden files with their contents. -/
def collectFiles : EntryList → List (String × String)
  | .nil => []
  | .cons (.file n cont) rest =>
      if isDotName n then collectFiles rest else (n, cont) :: collectFiles rest
  | .cons (.dir _ _) rest => collectFiles rest

/-- The blog-post metadata a page source file contributes: `some` exactly when
the `_gen_page` metadata pipeline succeeds and yields a `blog_post` page. -/
def metaOf? (srcDir : List String) (content : String) : Option PageMetadata :=
  match pageMeta srcDir content with
  | .ok md => if md.1.page_type = PageType.blog_post then some md.1 else none
  | .error _ => none

/-- Blog-post metadata contributed by a directory's own (collected) files. -/
def fileMetas (srcDir : List String) (fls : List (String × String)) : List PageMetadata :=
  fls.filterMap (fun nc => if nc.1 = INDEX_MD then metaOf? srcDir nc.2 else none)

/-- All blog-post metadata discovered while `_gen_pages` iterates a directory
listing `es` at `srcDir` — that is, the posts found inside (non-hidden)
subdirectories, in traversal order. The directory's own collected files are
the caller's file loop, so they are not included here. -/
def blogMetasOf (srcDir : List String) : EntryList → List PageMetadata
  | .nil => []
  | .cons (.file _ _) rest => blogMetasOf srcDir rest
  | .cons (.dir n cs) rest =>
      if isDotName n then blogMetasOf srcDir rest
      else (blogMetasOf (srcDir ++ [n]) cs ++ fileMetas (srcDir ++ [n]) (collectFiles cs))
             ++ blogMetasOf srcDir rest

/-- The contents of the generated pages in a write trace, in generation
order. -/
def pageContents : List WriteEvent → List String
  | [] => []
  | .pageWrite _ _ cont :: rest => cont :: pageContents rest
  | .mkdirEvent _ :: rest => pageContents rest
  | .copyAsset _ _ :: rest => pageContents rest
  | .copyPage _ _ :: rest => pageContents rest
  | .shaWrite _ :: rest => pageContents rest

/-- The digests written to the hash manifest in a write trace. -/
def digestsOf : List WriteEvent → List String
  | [] => []
  | .shaWrite d :: rest => d :: digestsOf rest
  | .mkdirEvent _ :: rest => digestsOf rest
  | .copyAsset _ _ :: rest => digestsOf rest
  | .copyPage _ _ :: rest => digestsOf rest
  | .pageWrite _ _ _ :: rest => digestsOf rest

/-- Every path (destination or source) a write event touches. -/
def eventPaths : WriteEvent → List (List String)
  | .mkdirEvent d => [d]
  | .copyAsset d s => [d, s]
  | .copyPage d s => [d, s]
  | .pageWrite d s _ => [d, s]
  | .shaWrite _ => []

/-- The source filename of an event derived from the `pages/` tree (asset
copies come from `assets/`, not `pages/`, so they are excluded). -/
def pagesSrcName : WriteEvent → Option String
  | .copyPage _ s => s.getLast?
  | .pageWrite _ s _ => s.getLast?
  | .mkdirEvent _ => none
  | .copyAsset _ _ => none
  | .shaWrite _ => none

/-- A page source file `pages/<rp>/index.md` reachable by the generator: every
directory component on the way is non-hidden (the file name `index.md` is
itself never hidden). -/
inductive HasPage : EntryList → List String → String → Prop
  | here (es : EntryList) (cont : String) :
      MemE (.file INDEX_MD cont) es → HasPage es [] cont
  | there (es : EntryList) (n : String) (cs : EntryList) (rp : List String) (cont : String) :
      MemE (.dir n cs) es → isDotName n = false → HasPage cs rp cont →
      HasPage es (n :: rp) cont

/-- The key/value pair a front-matter line denotes, as written: split at the
first colon, both sides stripped. -/
def pairOfLine (l : String) : String × String :=
  match splitFirstColon l with
  | some kv => (pyStrip kv.1, pyStrip kv.2)
  | none => ("", "")

/-- The key/value pairs written in a front-matter header block, in order. -/
def writtenPairs (mid : List String) : FrontMatter :=
  mid.map pairOfLine

/-- The dict obtained by inserting a pair list in order (later duplicates
overwrite in place, as in Python). -/
def dictOfPairs (ps : FrontMatter) : FrontMatter :=
  ps.foldl (fun d kv => dictInsert d kv.1 kv.2) []

/-- Index of the first closing delimiter among the lines after the first. -/
def findClosingIdx : List String → Option Nat
  | [] => none
  | l :: ls =>
      if l = FRONT_MATTER_DELIM then some 0
      else (findClosingIdx ls).map (fun j => j + 1)

/-- The claim's reading of the parsed body: the original text minus the header
block, where the header block is the original's prefix through the closing
delimiter line and its newline (capped at the text's end). This is spec-side
vocabulary, used to state what the claim asserts. -/
def originalMinusHeader (md : String) : String :=
  match splitlines md with
  | [] => ""
  | l0 :: rest =>
      match findClosingIdx rest with
      | none => ""
      | some j =>
          let k := l0.data.length + 1 + ((rest.take (j + 1)).map (fun l => l.data.length + 1)).sum
          String.mk (md.data.drop (min k md.data.length))

/-- The claim's reading of the date pattern: the whole string is exactly
`digit{4}-digit{2}-digit{2}` (spec-side vocabulary). -/
def isExactDate (s : String) : Bool :=
  match s.data with
  | [y1, y2, y3, y4, h1, m1, m2, h2, d1, d2] =>
      y1.isDigit && y2.isDigit && y3.isDigit && y4.isDigit &&
      h1 == '-' && m1.isDigit && m2.isDigit && h2 == '-' &&
      d1.isDigit && d2.isDigit
  | _ => false

/-!
Model of `build/dev_server.py`. `run(port)` first evaluates the expression
`build()`. The imported `build.build.build` has signature `build(env: Env)`
with no default, so Python's call protocol is checked before any of the
function body runs: too few positional arguments raise `TypeError`.
-/

/-- Number of required positional parameters of `build.build.build`. -/
def buildParamCount : Nat := 1

/-- Number of arguments at the `build()` call sites in `dev_server.py`
(both `run` and `_watch_dir` pass none). -/
def runBuildCallArgCount : Nat := 0

/-- Python runtime errors relevant to the dev-server model. -/
inductive DevError where
  | typeErrorMissingArg
deriving DecidableEq

/-- Observable milestones of `run(port)`. -/
inductive DevEvent where
  | buildCompleted
  | watcherStarted (dir : String)
  | serveStarted (port : Nat)
deriving DecidableEq

/-- Python's positional-argument check when calling `build` with `argc`
arguments. -/
def callBuild (argc : Nat) : Except DevError Unit :=
  if argc < buildParamCount then .error .typeErrorMissingArg else .ok ()

/-- `run(port)` from `build/dev_server.py`: evaluate `build()`, then start the
two watcher processes, then serve forever. The result is the list of
milestones reached and the error, if any, that escaped. -/
def devRun (port : Nat) : List DevEvent × Option DevError :=
  match callBuild runBuildCallArgCount with
  | .error e => ([], some e)
  | .ok _ =>
      ([DevEvent.buildCompleted, .watcherStarted "build", .watcherStarted "pages",
        .serveStarted port], none)

/-!
Transition-system model of the watcher/rebuild coordination (`_watch_dir` and
the shared `multiprocessing.Lock` created in `run`). Two watcher processes
(for `build/` and `pages/`) each loop over detected change batches and run
`with lock: build()`. The body of the rebuild is abstracted as the critical
section between acquiring and releasing the lock.
-/

/-- The two watcher processes started by `run`. -/
inductive WatcherId where
  | buildW
  | pagesW
deriving DecidableEq

/-- Bump a per-watcher counter. -/
def bumpN (f : WatcherId → Nat) (w : WatcherId) : WatcherId → Nat :=
  fun x => if x = w then f x + 1 else f x

/-- Decrement a per-watcher counter. -/
def decN (f : WatcherId → Nat) (w : WatcherId) : WatcherId → Nat :=
  fun x => if x = w then f x - 1 else f x

/-- Update a per-watcher flag. -/
def setB (f : WatcherId → Bool) (w : WatcherId) (b : Bool) : WatcherId → Bool :=
  fun x => if x = w then b else f x

/-- Joint state of the two watcher processes and the shared lock:
which watcher is inside its `with lock: build()` block, who holds the lock,
and per watcher how many change batches were detected, are still pending, and
have been rebuilt. -/
structure DevState where
  rebuilding : WatcherId → Bool
  lockHolder : Option WatcherId
  detected : WatcherId → Nat
  pending : WatcherId → Nat
  completed : WatcherId → Nat

/-- Interleaving semantics of the watcher loops: a watcher's `watchfiles`
iterator yields a change batch (`detect`); a watcher with a pending batch
acquires the free shared lock and enters its rebuild (`acquire` — the blocking
`with lock:` acquisition is atomic); a rebuilding watcher finishes its build
and releases the lock (`release`). -/
inductive DevStep : DevState → DevState → Prop
  | detect (s : DevState) (w : WatcherId) :
      DevStep s { s with detected := bumpN s.detected w, pending := bumpN s.pending w }
  | acquire (s : DevState) (w : WatcherId) :
      s.rebuilding w = false → 0 < s.pending w → s.lockHolder = none →
      DevStep s { s with rebuilding := setB s.rebuilding w true, lockHolder := some w,
                         pending := decN s.pending w }
  | release (s : DevState) (w : WatcherId) :
      s.rebuilding w = true → s.lockHolder = some w →
      DevStep s { s with rebuilding := setB s.rebuilding w false, lockHolder := none,
                         completed := bumpN s.completed w }

/-- Cold-start state: no one rebuilding, lock free, no events yet. -/
def initDevState : DevState :=
  ⟨fun _ => false, none, fun _ => 0, fun _ => 0, fun _ => 0⟩

/-- States reachable from cold start. -/
inductive DevReach : DevState → Prop
  | init : DevReach initDevState
  | step {s s' : DevState} : DevReach s → DevStep s s' → DevReach s'

/-- A path whose components are all non-hidden. -/
def cleanPath (p : List String) : Prop :=
  ∀ comp ∈ p, isDotName comp = false

/-- Every path touched by these events has only non-hidden components. -/
def CleanEvents (ws : List WriteEvent) : Prop :=
  ∀ w ∈ ws, ∀ p ∈ eventPaths w, ∀ comp ∈ p, isDotName comp = false

/-- No event in the list was produced from a `notes.md` source, and every
generated page was produced from an `index.md` source. -/
def PagesSrcOk (ws : List WriteEvent) : Prop :=
  ∀ w ∈ ws, pagesSrcName w ≠ some NOTES_MD ∧
    ∀ d s c0, w = WriteEvent.pageWrite d s c0 → s.getLast? = some INDEX_MD

/-- How one pipeline step at source directory `sd` transforms the build
state: the write trace and the hash stream only grow, the chunks fed to the
hash are exactly the contents of the pages generated during the step, no
digest is written, the blog-post list only grows, all paths stay clean when
`sd` is clean, and nothing is sourced from `notes.md`. -/
def Progress (sd : List String) (st st' : BuildState) : Prop :=
  ∃ dl, st'.writes = st.writes ++ dl ∧
    st'.shaData = st.shaData ++ pageContents dl ∧
    digestsOf dl = [] ∧
    (∃ b, st'.blogPosts = st.blogPosts ++ b) ∧
    (cleanPath sd → CleanEvents dl) ∧
    PagesSrcOk dl

/-- A concrete collaborator instance (markdown and template renderers) used to
evaluate the pipeline on concrete trees. -/
def demoCollab : Collab :=
  { markdownHtml := fun s => "<" ++ s ++ ">",
    renderBase := fun t e d cont =>
      t ++ "|" ++ e ++ "|" ++ (match d with | some x => x | none => "-") ++ "|" ++ cont,
    renderBlogIndex := fun ps => "[" ++ joinLines (ps.map (fun m => m.title)) ++ "]" }

/-- Children of a concrete `pages/blog` directory: one blog-post subdirectory
and the blog index page. -/
def demoBlogChildren : EntryList :=
  .cons (.dir "p1" (.cons (.file "index.md"
      "---\npage_type: blog_post\ntitle: A\ndate: 2024-01-02\n---\nbody1") .nil))
  (.cons (.file "index.md" "---\npage_type: index\ntitle: Blog\n---\nintro") .nil)

/-- A concrete `pages/` tree with a blog and a home page. -/
def demoPages : EntryList :=
  .cons (.dir "blog" demoBlogChildren)
  (.cons (.file "index.md" "---\npage_type: index\ntitle: Home\n---\nhi") .nil)

/-- A concrete `pages/` tree whose only page has no front matter. -/
def demoBadPages : EntryList :=
  .cons (.file "index.md" "no front matter here") .nil

/-- Watcher state after one change batch is detected for the build watcher. -/
def devS1 : DevState :=
  { initDevState with
      detected := bumpN initDevState.detected WatcherId.buildW,
      pending := bumpN initDevState.pending WatcherId.buildW }

/-- Watcher state after the build watcher acquires the lock and rebuilds. -/
def devS2 : DevState :=
  { devS1 with
      rebuilding := setB devS1.rebuilding WatcherId.buildW true,
      lockHolder := some WatcherId.buildW,
      pending := decN devS1.pending WatcherId.buildW }

/-! ### Lemmas about the front-matter scanner -/

theorem eq_empty_of_data_nil {s : String} (h : s.data = []) : s = "" := by
  cases s with
  | mk d =>
      have hd : d = [] := h
      subst hd
      rfl

theorem splitLinesAux_ne_nil (data acc) : splitLinesAux data acc ≠ [] := by
  induction data generalizing acc with
  | nil => simp [splitLinesAux]
  | cons c rest ih =>
      by_cases h : c = '\n' <;> simp [splitLinesAux, h]
      exact ih (c :: acc)

theorem mk_eq_empty_iff (l : List Char) : String.mk l = "" ↔ l = [] := by
  constructor
  · intro h
    exact congrArg String.data h
  · intro h
    subst h
    rfl

theorem splitLinesAux_two_le (data acc) (hd : data ≠ [])
    (hl : (splitLinesAux data acc).getLast? = some "") :
    2 ≤ (splitLinesAux data acc).length := by
  induction data generalizing acc with
  | nil => exact absurd rfl hd
  | cons c rest ih =>
      by_cases h : c = '\n'
      · have h1 : splitLinesAux rest [] ≠ [] := splitLinesAux_ne_nil rest []
        have h2 : 0 < (splitLinesAux rest []).length := List.length_pos.mpr h1
        simp [splitLinesAux, h]
        omega
      · rw [splitLinesAux, if_neg h] at hl ⊢
        rcases eq_or_ne rest [] with hr | hr
        · subst hr
          simp [splitLinesAux] at hl
          rw [mk_eq_empty_iff] at hl
          simp at hl
        · exact ih (c :: acc) hr hl

theorem splitlines_ne_nil {md : String} (h : md ≠ "") : splitlines md ≠ [] := by
  have hdata : md.data ≠ [] := fun hd => h (eq_empty_of_data_nil hd)
  rw [splitlines, if_neg hdata]
  by_cases hlast : (splitLinesAux md.data []).getLast? = some ""
  · rw [if_pos hlast]
    have h2 := splitLinesAux_two_le md.data [] hdata hlast
    have : 0 < (splitLinesAux md.data []).dropLast.length := by
      rw [List.length_dropLast]
      omega
    exact List.length_pos.mp this
  · rw [if_neg hlast]
    exact splitLinesAux_ne_nil md.data []

theorem parseFMLoop_no_oob (ls : List String) (acc : FrontMatter)
    (h : FRONT_MATTER_DELIM ∈ ls) :
    parseFMLoop acc ls ≠ .error .indexOutOfRange := by
  induction ls generalizing acc with
  | nil => simp at h
  | cons l ls ih =>
      by_cases hl : l = FRONT_MATTER_DELIM
      · simp [parseFMLoop, hl]
      · have hmem : FRONT_MATTER_DELIM ∈ ls := by
          rcases List.mem_cons.mp h with h1 | h2
          · exact absurd h1.symm hl
          · exact h2
        cases hsp : splitFirstColon l with
        | none => simp [parseFMLoop, hl, hsp]
        | some kv =>
            rw [parseFMLoop, if_neg hl, hsp]
            exact ih _ hmem

theorem parseFMLoop_oob (ls : List String) (acc : FrontMatter)
    (hnd : FRONT_MATTER_DELIM ∉ ls)
    (hc : ∀ l ∈ ls, (splitFirstColon l).isSome) :
    parseFMLoop acc ls = .error .indexOutOfRange := by
  induction ls generalizing acc with
  | nil => rfl
  | cons l ls ih =>
      have hl : l ≠ FRONT_MATTER_DELIM := fun he => hnd (he ▸ List.mem_cons_self l ls)
      have hsp := hc l (List.mem_cons_self l ls)
      rcases Option.isSome_iff_exists.mp hsp with ⟨kv, hkv⟩
      rw [parseFMLoop, if_neg hl, hkv]
      exact ih _ (fun he => hnd (List.mem_cons_of_mem l he))
        (fun x hx => hc x (List.mem_cons_of_mem l hx))

theorem parseFMLoop_spec (mid rest : List String) (acc : FrontMatter)
    (hnd : FRONT_MATTER_DELIM ∉ mid)
    (hc : ∀ l ∈ mid, (splitFirstColon l).isSome) :
    parseFMLoop acc (mid ++ FRONT_MATTER_DELIM :: rest) =
      .ok ((writtenPairs mid).foldl (fun d kv => dictInsert d kv.1 kv.2) acc, rest) := by
  induction mid generalizing acc with
  | nil => simp [parseFMLoop, writtenPairs]
  | cons l mid ih =>
      have hl : l ≠ FRONT_MATTER_DELIM := fun he => hnd (he ▸ List.mem_cons_self l mid)
      rcases Option.isSome_iff_exists.mp (hc l (List.mem_cons_self l mid)) with ⟨kv, hkv⟩
      rw [List.cons_append, parseFMLoop, if_neg hl, hkv]
      refine Eq.trans (ih _ (fun he => hnd (List.mem_cons_of_mem l he))
        (fun x hx => hc x (List.mem_cons_of_mem l hx))) ?_
      simp [writtenPairs, pairOfLine, hkv]

theorem dictInsert_of_not_mem (d : FrontMatter) (k v : String)
    (h : k ∉ d.map Prod.fst) : dictInsert d k v = d ++ [(k, v)] := by
  induction d with
  | nil => rfl
  | cons kv' d ih =>
      have hne : kv'.1 ≠ k := by
        intro he
        exact h (by simp [he])
      cases kv' with
      | mk k' v' =>
          simp only at hne
          rw [dictInsert, if_neg hne]
          simp only [List.cons_append, List.cons.injEq, true_and]
          exact ih (fun hm => h (by simp at hm ⊢; exact Or.inr hm))

theorem foldl_dictInsert_of_nodup :
    ∀ ps d : FrontMatter, (ps.map Prod.fst).Nodup →
      (∀ k ∈ ps.map Prod.fst, k ∉ d.map Prod.fst) →
      ps.foldl (fun d kv => dictInsert d kv.1 kv.2) d = d ++ ps := by
  intro ps
  induction ps with
  | nil =>
      intro d _ _
      simp
  | cons kv ps ih =>
      intro d hnd hdis
      simp only [List.map_cons, List.nodup_cons] at hnd
      obtain ⟨hknotin, hndtail⟩ := hnd
      have hk : kv.1 ∉ d.map Prod.fst := hdis kv.1 (by simp)
      have hstep : dictInsert d kv.1 kv.2 = d ++ [(kv.1, kv.2)] :=
        dictInsert_of_not_mem d kv.1 kv.2 hk
      have hdis' : ∀ k ∈ ps.map Prod.fst, k ∉ (d ++ [(kv.1, kv.2)]).map Prod.fst := by
        intro k hkmem
        simp only [List.map_append, List.mem_append, List.map_cons, List.map_nil,
          List.mem_singleton]
        push_neg
        constructor
        · exact hdis k (by simp [hkmem])
        · intro he
          exact hknotin (he ▸ hkmem)
      rw [List.foldl_cons, hstep, ih (d ++ [(kv.1, kv.2)]) hndtail hdis']
      simp

/-! ### Trace bookkeeping lemmas -/

theorem pageContents_append (a b : List WriteEvent) :
    pageContents (a ++ b) = pageContents a ++ pageContents b := by
  induction a with
  | nil => simp [pageContents]
  | cons w rest ih => cases w <;> simp [pageContents, ih]

theorem digestsOf_append (a b : List WriteEvent) :
    digestsOf (a ++ b) = digestsOf a ++ digestsOf b := by
  induction a with
  | nil => simp [digestsOf]
  | cons w rest ih => cases w <;> simp [digestsOf, ih]

theorem not_shaWrite_of_digestsOf_nil {ws : List WriteEvent} (h : digestsOf ws = [])
    (d : String) : WriteEvent.shaWrite d ∉ ws := by
  intro hmem
  induction ws with
  | nil => simp at hmem
  | cons w rest ih =>
      rcases List.mem_cons.mp hmem with he | hm
      · subst he
        simp [digestsOf] at h
      · cases w <;> simp [digestsOf] at h <;> exact ih h hm

theorem Progress.refl (sd : List String) (st : BuildState) : Progress sd st st := by
  refine ⟨[], by simp, by simp [pageContents], by simp [digestsOf], ⟨[], by simp⟩, ?_, ?_⟩
  · intro _ w hw
    simp at hw
  · intro w hw
    simp at hw

theorem Progress.trans {sd : List String} {st1 st2 st3 : BuildState}
    (h1 : Progress sd st1 st2) (h2 : Progress sd st2 st3) : Progress sd st1 st3 := by
  obtain ⟨d1, hw1, hs1, hd1, ⟨b1, hb1⟩, hc1, hn1⟩ := h1
  obtain ⟨d2, hw2, hs2, hd2, ⟨b2, hb2⟩, hc2, hn2⟩ := h2
  refine ⟨d1 ++ d2, ?_, ?_, ?_, ⟨b1 ++ b2, ?_⟩, ?_, ?_⟩
  · rw [hw2, hw1, List.append_assoc]
  · rw [hs2, hs1, pageContents_append, List.append_assoc]
  · rw [digestsOf_append, hd1, hd2]
    rfl
  · rw [hb2, hb1, List.append_assoc]
  · intro hcl w hw
    rcases List.mem_append.mp hw with h | h
    · exact hc1 hcl w h
    · exact hc2 hcl w h
  · intro w hw
    rcases List.mem_append.mp hw with h | h
    · exact hn1 w h
    · exact hn2 w h

theorem Progress.widen {sd : List String} {n : String} {st st' : BuildState}
    (hn : isDotName n = false) (h : Progress (sd ++ [n]) st st') : Progress sd st st' := by
  obtain ⟨dl, hw, hs, hd, hb, hc, hno⟩ := h
  refine ⟨dl, hw, hs, hd, hb, ?_, hno⟩
  intro hcl
  refine hc ?_
  intro comp hcomp
  rcases List.mem_append.mp hcomp with h | h
  · exact hcl comp h
  · rw [List.mem_singleton] at h
    subst h
    exact hn

theorem progress_addWrite_mkdir {sd : List String} (d : List String) (st : BuildState)
    (hd : cleanPath sd → ∀ comp ∈ d, isDotName comp = false) :
    Progress sd st (addWrite (.mkdirEvent d) st) := by
  refine ⟨[.mkdirEvent d], by simp [addWrite], by simp [addWrite, pageContents],
    by simp [digestsOf], ⟨[], by simp [addWrite]⟩, ?_, ?_⟩
  · intro hcl w hw
    rw [List.mem_singleton] at hw
    subst hw
    intro p hp comp hcomp
    simp [eventPaths] at hp
    subst hp
    exact hd hcl comp hcomp
  · intro w hw
    rw [List.mem_singleton] at hw
    subst hw
    constructor
    · simp [pagesSrcName]
    · intro d' s' c0 he
      exact absurd he (by simp)

theorem progress_addWrite_copyPage {sd : List String} (n : String) (st : BuildState)
    (hn : isDotName n = false) (hnotes : n ≠ NOTES_MD) :
    Progress sd st (addWrite (.copyPage (sd ++ [n]) (sd ++ [n])) st) := by
  refine ⟨[.copyPage (sd ++ [n]) (sd ++ [n])], by simp [addWrite],
    by simp [addWrite, pageContents], by simp [digestsOf], ⟨[], by simp [addWrite]⟩, ?_, ?_⟩
  · intro hcl w hw
    rw [List.mem_singleton] at hw
    subst hw
    intro p hp comp hcomp
    simp [eventPaths] at hp
    have hpcl : ∀ comp ∈ sd ++ [n], isDotName comp = false := by
      intro x hx
      rcases List.mem_append.mp hx with h | h
      · exact hcl x h
      · rw [List.mem_singleton] at h
        subst h
        exact hn
    subst hp
    exact hpcl comp hcomp
  · intro w hw
    rw [List.mem_singleton] at hw
    subst hw
    constructor
    · simp only [pagesSrcName, List.getLast?_concat, ne_eq, Option.some.injEq]
      exact hnotes
    · intro d' s' c0 he
      exact absurd he (by simp)

/-! ### Lemmas about `_gen_page` -/

theorem pageMeta_metaOf {sd : List String} {cont : String} {meta : PageMetadata} {md : String}
    (h : pageMeta sd cont = .ok (meta, md)) :
    metaOf? sd cont = if meta.page_type = PageType.blog_post then some meta else none := by
  simp [metaOf?, h]

theorem genPage_err {c : Collab} {env : String} {sd : List String} {cont : String}
    {st st2 : BuildState} {e : BuildError}
    (h : genPage c env sd cont st = .error (st2, e)) :
    st2 = st ∧ pageMeta sd cont = .error e := by
  cases hpm : pageMeta sd cont with
  | error e' =>
      rw [genPage, hpm] at h
      simp only [Except.error.injEq, Prod.mk.injEq] at h
      exact ⟨h.1.symm, by rw [h.2]⟩
  | ok pr =>
      obtain ⟨meta, md⟩ := pr
      rw [genPage, hpm] at h
      exact absurd h (by simp)

theorem genPage_ok_spec {c : Collab} {env : String} {sd : List String} {cont : String}
    {st st' : BuildState} (h : genPage c env sd cont st = .ok st') :
    ∃ meta md page,
      pageMeta sd cont = .ok (meta, md) ∧
      st'.blogPosts = st.blogPosts ++ (metaOf? sd cont).toList ∧
      st'.shaData = st.shaData ++ [page] ∧
      st'.writes = st.writes ++ [.pageWrite (sd ++ ["index.html"]) (sd ++ [INDEX_MD]) page] ∧
      page = c.renderBase meta.title env meta.date
        (if sd = ["blog"] then
           c.markdownHtml md ++ c.renderBlogIndex (st.blogPosts ++ (metaOf? sd cont).toList)
         else c.markdownHtml md) := by
  cases hpm : pageMeta sd cont with
  | error e =>
      rw [genPage, hpm] at h
      exact absurd h (by simp)
  | ok pr =>
      obtain ⟨meta, md⟩ := pr
      have hmo := pageMeta_metaOf hpm
      rw [genPage, hpm] at h
      by_cases hbp : meta.page_type = PageType.blog_post
      · simp only [hbp, if_true, reduceIte] at h
        simp only [Except.ok.injEq] at h
        subst h
        rw [hmo]
        simp only [hbp, reduceIte, Option.toList_some]
        exact ⟨meta, md, _, rfl, by simp, by simp, by simp, rfl⟩
      · simp only [hbp, reduceIte] at h
        simp only [Except.ok.injEq] at h
        subst h
        rw [hmo]
        simp only [hbp, reduceIte, Option.toList_none, List.append_nil]
        exact ⟨meta, md, _, rfl, by simp, by simp, by simp, rfl⟩

theorem genPage_ok_progress {c : Collab} {env : String} {sd : List String} {cont : String}
    {st st' : BuildState} (h : genPage c env sd cont st = .ok st') : Progress sd st st' := by
  obtain ⟨meta, md, page, _, hbp, hsha, hw, _⟩ := genPage_ok_spec h
  refine ⟨[.pageWrite (sd ++ ["index.html"]) (sd ++ [INDEX_MD]) page], hw,
    by rw [hsha]; rfl, by simp [digestsOf], ⟨(metaOf? sd cont).toList, hbp⟩, ?_, ?_⟩
  · intro hcl w hwm
    rw [List.mem_singleton] at hwm
    subst hwm
    intro p hp comp hcomp
    simp only [eventPaths, List.mem_cons, List.mem_singleton, List.not_mem_nil,
      or_false] at hp
    have hdst : ∀ x, isDotName x = false → ∀ comp ∈ sd ++ [x], isDotName comp = false := by
      intro x hx y hy
      rcases List.mem_append.mp hy with hyy | hyy
      · exact hcl y hyy
      · rw [List.mem_singleton] at hyy
        subst hyy
        exact hx
    rcases hp with hp | hp
    · subst hp
      exact hdst "index.html" (by decide) comp hcomp
    · subst hp
      exact hdst INDEX_MD (by decide) comp hcomp
  · intro w hwm
    rw [List.mem_singleton] at hwm
    subst hwm
    constructor
    · simp only [pagesSrcName, List.getLast?_concat, ne_eq, Option.some.injEq]
      decide
    · intro d' s' c0 he
      simp only [WriteEvent.pageWrite.injEq] at he
      rw [← he.2.1, List.getLast?_concat]

/-! ### Unfolding equations for the tree walks -/

theorem genFiles_cons_idx_err {c : Collab} {env : String} {sd : List String} {cont : String}
    {rest : List (String × String)} {st : BuildState} {p : BuildState × BuildError}
    (h : genPage c env sd cont st = .error p) :
    genFiles c env sd ((INDEX_MD, cont) :: rest) st = .error p := by
  simp [genFiles, h]

theorem genFiles_cons_idx_ok {c : Collab} {env : String} {sd : List String} {cont : String}
    {rest : List (String × String)} {st st' : BuildState}
    (h : genPage c env sd cont st = .ok st') :
    genFiles c env sd ((INDEX_MD, cont) :: rest) st = genFiles c env sd rest st' := by
  simp [genFiles, h]

theorem genFiles_cons_notes {c : Collab} {env : String} {sd : List String} {cont : String}
    {rest : List (String × String)} {st : BuildState} :
    genFiles c env sd ((NOTES_MD, cont) :: rest) st = genFiles c env sd rest st := by
  simp only [genFiles]
  rw [if_neg (by decide)]
  simp

theorem genFiles_cons_other {c : Collab} {env : String} {sd : List String} {n cont : String}
    {rest : List (String × String)} {st : BuildState}
    (h1 : n ≠ INDEX_MD) (h2 : n ≠ NOTES_MD) :
    genFiles c env sd ((n, cont) :: rest) st =
      genFiles c env sd rest (addWrite (.copyPage (sd ++ [n]) (sd ++ [n])) st) := by
  simp [genFiles, h1, h2]

theorem genIter_nil {c : Collab} {env : String} {sd : List String} {st : BuildState}
    {files : List (String × String)} :
    genIter c env sd .nil st files = .ok (st, files) := rfl

theorem genIter_file_dot {c : Collab} {env : String} {sd : List String} {n cont : String}
    {rest : EntryList} {st : BuildState} {files : List (String × String)}
    (h : isDotName n = true) :
    genIter c env sd (.cons (.file n cont) rest) st files = genIter c env sd rest st files := by
  simp [genIter, h]

theorem genIter_file {c : Collab} {env : String} {sd : List String} {n cont : String}
    {rest : EntryList} {st : BuildState} {files : List (String × String)}
    (h : isDotName n = false) :
    genIter c env sd (.cons (.file n cont) rest) st files =
      genIter c env sd rest st (files ++ [(n, cont)]) := by
  simp [genIter, h]

theorem genIter_dir_dot {c : Collab} {env : String} {sd : List String} {n : String}
    {cs rest : EntryList} {st : BuildState} {files : List (String × String)}
    (h : isDotName n = true) :
    genIter c env sd (.cons (.dir n cs) rest) st files = genIter c env sd rest st files := by
  simp [genIter, h]

theorem genIter_dir_err1 {c : Collab} {env : String} {sd : List String} {n : String}
    {cs rest : EntryList} {st : BuildState} {files : List (String × String)}
    {p : BuildState × BuildError} (hn : isDotName n = false)
    (h1 : genIter c env (sd ++ [n]) cs (addWrite (.mkdirEvent (sd ++ [n])) st) [] = .error p) :
    genIter c env sd (.cons (.dir n cs) rest) st files = .error p := by
  simp [genIter, hn]
  rw [h1]

theorem genIter_dir_err2 {c : Collab} {env : String} {sd : List String} {n : String}
    {cs rest : EntryList} {st st2 : BuildState} {files fls : List (String × String)}
    {p : BuildState × BuildError} (hn : isDotName n = false)
    (h1 : genIter c env (sd ++ [n]) cs (addWrite (.mkdirEvent (sd ++ [n])) st) [] = .ok (st2, fls))
    (h2 : genFiles c env (sd ++ [n]) fls st2 = .error p) :
    genIter c env sd (.cons (.dir n cs) rest) st files = .error p := by
  have hmid : genIter c env sd (.cons (.dir n cs) rest) st files =
      (match genFiles c env (sd ++ [n]) fls st2 with
       | .error e => .error e
       | .ok st3 => genIter c env sd rest st3 files) := by
    simp [genIter, hn]
    rw [h1]
  rw [hmid, h2]

theorem genIter_dir_ok {c : Collab} {env : String} {sd : List String} {n : String}
    {cs rest : EntryList} {st st2 st3 : BuildState} {files fls : List (String × String)}
    (hn : isDotName n = false)
    (h1 : genIter c env (sd ++ [n]) cs (addWrite (.mkdirEvent (sd ++ [n])) st) [] = .ok (st2, fls))
    (h2 : genFiles c env (sd ++ [n]) fls st2 = .ok st3) :
    genIter c env sd (.cons (.dir n cs) rest) st files = genIter c env sd rest st3 files := by
  have hmid : genIter c env sd (.cons (.dir n cs) rest) st files =
      (match genFiles c env (sd ++ [n]) fls st2 with
       | .error e => .error e
       | .ok st3 => genIter c env sd rest st3 files) := by
    simp [genIter, hn]
    rw [h1]
  rw [hmid, h2]

theorem copyIter_file_dot {sd : List String} {n cont : String} {rest : EntryList}
    {st : BuildState} (h : isDotName n = true) :
    copyIter sd (.cons (.file n cont) rest) st = copyIter sd rest st := by
  simp [copyIter, h]

theorem copyIter_file {sd : List String} {n cont : String} {rest : EntryList}
    {st : BuildState} (h : isDotName n = false) :
    copyIter sd (.cons (.file n cont) rest) st =
      copyIter sd rest (addWrite (.copyAsset (sd ++ [n]) (sd ++ [n])) st) := by
  simp [copyIter, h]

theorem copyIter_dir_dot {sd : List String} {n : String} {cs rest : EntryList}
    {st : BuildState} (h : isDotName n = true) :
    copyIter sd (.cons (.dir n cs) rest) st = copyIter sd rest st := by
  simp [copyIter, h]

theorem copyIter_dir {sd : List String} {n : String} {cs rest : EntryList}
    {st : BuildState} (h : isDotName n = false) :
    copyIter sd (.cons (.dir n cs) rest) st =
      copyIter sd rest (copyIter (sd ++ [n]) cs (addWrite (.mkdirEvent (sd ++ [n])) st)) := by
  simp [copyIter, h]

/-! ### Progress through the asset walk -/

theorem progress_addWrite_copyAsset {sd : List String} (n : String) (st : BuildState)
    (hn : isDotName n = false) :
    Progress sd st (addWrite (.copyAsset (sd ++ [n]) (sd ++ [n])) st) := by
  refine ⟨[.copyAsset (sd ++ [n]) (sd ++ [n])], by simp [addWrite],
    by simp [addWrite, pageContents], by simp [digestsOf], ⟨[], by simp [addWrite]⟩, ?_, ?_⟩
  · intro hcl w hw
    rw [List.mem_singleton] at hw
    subst hw
    intro p hp comp hcomp
    simp only [eventPaths, List.mem_cons, List.mem_singleton, List.not_mem_nil,
      or_false] at hp
    have hpcl : ∀ x ∈ sd ++ [n], isDotName x = false := by
      intro x hx
      rcases List.mem_append.mp hx with h | h
      · exact hcl x h
      · rw [List.mem_singleton] at h
        subst h
        exact hn
    rcases hp with hp | hp <;> exact hpcl comp (hp ▸ hcomp)
  · intro w hw
    rw [List.mem_singleton] at hw
    subst hw
    constructor
    · simp [pagesSrcName]
    · intro d' s' c0 he
      exact absurd he (by simp)

theorem copyIter_spec : ∀ (sd : List String) (es : EntryList) (st : BuildState),
    Progress sd st (copyIter sd es st) ∧
    (copyIter sd es st).shaData = st.shaData ∧
    (copyIter sd es st).blogPosts = st.blogPosts := by
  intro sd es st
  induction sd, es, st using copyIter.induct with
  | case1 sd st =>
      exact ⟨Progress.refl sd st, rfl, rfl⟩
  | case2 sd n cont rest st h ih =>
      rw [copyIter_file_dot h]
      exact ih
  | case3 sd n cont rest st h ih =>
      rw [copyIter_file (by simpa using h)]
      obtain ⟨ih1, ih2, ih3⟩ := ih
      refine ⟨Progress.trans (progress_addWrite_copyAsset n st (by simpa using h)) ih1, ?_, ?_⟩
      · rw [ih2]
        rfl
      · rw [ih3]
        rfl
  | case4 sd n cs rest st h ih =>
      rw [copyIter_dir_dot h]
      exact ih
  | case5 sd n cs rest st h ih1 ih2 =>
      have hn : isDotName n = false := by simpa using h
      rw [copyIter_dir hn]
      obtain ⟨ia1, ia2, ia3⟩ := ih1
      obtain ⟨ib1, ib2, ib3⟩ := ih2
      have hmk : Progress sd st (addWrite (.mkdirEvent (sd ++ [n])) st) := by
        refine progress_addWrite_mkdir (sd ++ [n]) st ?_
        intro hcl comp hcomp
        rcases List.mem_append.mp hcomp with hx | hx
        · exact hcl comp hx
        · rw [List.mem_singleton] at hx
          subst hx
          exact hn
      refine ⟨Progress.trans (Progress.trans hmk (Progress.widen hn ia1)) ib1, ?_, ?_⟩
      · rw [ib2, ia2]
        rfl
      · rw [ib3, ia3]
        rfl

/-! ### Progress through the page generation walk -/

theorem fileMetas_cons_idx (sd : List String) (cont : String)
    (rest : List (String × String)) :
    fileMetas sd ((INDEX_MD, cont) :: rest) = (metaOf? sd cont).toList ++ fileMetas sd rest := by
  cases hm : metaOf? sd cont <;> simp [fileMetas, List.filterMap_cons, hm]

theorem fileMetas_cons_skip (sd : List String) (n cont : String)
    (rest : List (String × String)) (h : n ≠ INDEX_MD) :
    fileMetas sd ((n, cont) :: rest) = fileMetas sd rest := by
  simp [fileMetas, List.filterMap_cons, h]

theorem genFiles_spec (c : Collab) (env : String) (sd : List String) :
    ∀ (fls : List (String × String)) (st : BuildState),
      (∀ nc ∈ fls, isDotName nc.1 = false) →
      (match genFiles c env sd fls st with
       | .error p => Progress sd st p.1
       | .ok st' => Progress sd st st' ∧ st'.blogPosts = st.blogPosts ++ fileMetas sd fls) := by
  intro fls st
  induction fls, st using genFiles.induct c env sd with
  | case1 st =>
      intro _
      rw [show genFiles c env sd [] st = .ok st from rfl]
      exact ⟨Progress.refl sd st, by simp [fileMetas]⟩
  | case2 cont rest st p h =>
      intro _
      rw [genFiles_cons_idx_err h]
      obtain ⟨heq, _⟩ := genPage_err h
      show Progress sd st p.1
      rw [heq]
      exact Progress.refl sd st
  | case3 cont rest st st' h ih =>
      intro hcl
      rw [genFiles_cons_idx_ok h]
      have ihr := ih (fun nc hnc => hcl nc (List.mem_cons_of_mem _ hnc))
      have hpp := genPage_ok_progress h
      obtain ⟨_, _, _, _, hbp, _, _, _⟩ := genPage_ok_spec h
      cases hres : genFiles c env sd rest st' with
      | error p =>
          rw [hres] at ihr
          exact Progress.trans hpp ihr
      | ok st'' =>
          rw [hres] at ihr
          obtain ⟨ih1, ih2⟩ := ihr
          refine ⟨Progress.trans hpp ih1, ?_⟩
          rw [ih2, hbp, fileMetas_cons_idx, List.append_assoc]
  | case4 cont rest st _ ih =>
      intro hcl
      rw [genFiles_cons_notes]
      have ihr := ih (fun nc hnc => hcl nc (List.mem_cons_of_mem _ hnc))
      cases hres : genFiles c env sd rest st with
      | error p =>
          rw [hres] at ihr
          exact ihr
      | ok st'' =>
          rw [hres] at ihr
          obtain ⟨ih1, ih2⟩ := ihr
          refine ⟨ih1, ?_⟩
          rw [ih2, fileMetas_cons_skip sd NOTES_MD cont rest (by decide)]
  | case5 n cont rest st h1 h2 ih =>
      intro hcl
      rw [genFiles_cons_other h1 h2]
      have hn : isDotName n = false := hcl (n, cont) (List.mem_cons_self _ _)
      have ihr := ih (fun nc hnc => hcl nc (List.mem_cons_of_mem _ hnc))
      have hcp : Progress sd st (addWrite (.copyPage (sd ++ [n]) (sd ++ [n])) st) :=
        progress_addWrite_copyPage n st hn h2
      cases hres : genFiles c env sd rest (addWrite (.copyPage (sd ++ [n]) (sd ++ [n])) st) with
      | error p =>
          rw [hres] at ihr
          exact Progress.trans hcp ihr
      | ok st'' =>
          rw [hres] at ihr
          obtain ⟨ih1, ih2⟩ := ihr
          refine ⟨Progress.trans hcp ih1, ?_⟩
          rw [ih2, fileMetas_cons_skip sd n cont rest h1]
          rfl

theorem genFiles_ok_spec {c : Collab} {env : String} {sd : List String}
    {fls : List (String × String)} {st st' : BuildState}
    (h : genFiles c env sd fls st = .ok st')
    (hcl : ∀ nc ∈ fls, isDotName nc.1 = false) :
    Progress sd st st' ∧ st'.blogPosts = st.blogPosts ++ fileMetas sd fls := by
  have hs := genFiles_spec c env sd fls st hcl
  rw [h] at hs
  exact hs

theorem genFiles_err_spec {c : Collab} {env : String} {sd : List String}
    {fls : List (String × String)} {st : BuildState} {p : BuildState × BuildError}
    (h : genFiles c env sd fls st = .error p)
    (hcl : ∀ nc ∈ fls, isDotName nc.1 = false) :
    Progress sd st p.1 := by
  have hs := genFiles_spec c env sd fls st hcl
  rw [h] at hs
  exact hs

theorem genIter_spec (c : Collab) (env : String) :
    ∀ (sd : List String) (es : EntryList) (st : BuildState) (files : List (String × String)),
      (match genIter c env sd es st files with
       | .error p => Progress sd st p.1
       | .ok r => Progress sd st r.1 ∧
           r.1.blogPosts = st.blogPosts ++ blogMetasOf sd es ∧
           r.2 = files ++ collectFiles es ∧
           ((∀ nc ∈ files, isDotName nc.1 = false) → ∀ nc ∈ r.2, isDotName nc.1 = false)) := by
  intro sd es st files
  induction sd, es, st, files using genIter.induct c env with
  | case1 sd st files =>
      rw [genIter_nil]
      exact ⟨Progress.refl sd st, by simp [blogMetasOf], by simp [collectFiles], fun h => h⟩
  | case2 sd n cont rest st files h ih =>
      rw [genIter_file_dot h]
      cases hres : genIter c env sd rest st files with
      | error p =>
          rw [hres] at ih
          exact ih
      | ok r =>
          rw [hres] at ih
          obtain ⟨ih1, ih2, ih3, ih4⟩ := ih
          exact ⟨ih1, by rw [ih2]; simp [blogMetasOf], by rw [ih3]; simp [collectFiles, h], ih4⟩
  | case3 sd n cont rest st files h ih =>
      have hn : isDotName n = false := by simpa using h
      rw [genIter_file hn]
      cases hres : genIter c env sd rest st (files ++ [(n, cont)]) with
      | error p =>
          rw [hres] at ih
          exact ih
      | ok r =>
          rw [hres] at ih
          obtain ⟨ih1, ih2, ih3, ih4⟩ := ih
          refine ⟨ih1, by rw [ih2]; simp [blogMetasOf], ?_, ?_⟩
          · rw [ih3, List.append_assoc]
            simp [collectFiles, hn]
          · intro hfl
            refine ih4 ?_
            intro nc hnc
            rcases List.mem_append.mp hnc with hx | hx
            · exact hfl nc hx
            · rw [List.mem_singleton] at hx
              subst hx
              exact hn
  | case4 sd n cs rest st files h ih =>
      rw [genIter_dir_dot h]
      cases hres : genIter c env sd rest st files with
      | error p =>
          rw [hres] at ih
          exact ih
      | ok r =>
          rw [hres] at ih
          obtain ⟨ih1, ih2, ih3, ih4⟩ := ih
          exact ⟨ih1, by rw [ih2]; simp [blogMetasOf, h], by rw [ih3]; simp [collectFiles], ih4⟩
  | case5 sd n cs rest st files h p h1 ih =>
      have hn : isDotName n = false := by simpa using h
      rw [genIter_dir_err1 hn h1]
      rw [h1] at ih
      have hmk : Progress sd st (addWrite (.mkdirEvent (sd ++ [n])) st) := by
        refine progress_addWrite_mkdir (sd ++ [n]) st ?_
        intro hcl comp hcomp
        rcases List.mem_append.mp hcomp with hx | hx
        · exact hcl comp hx
        · rw [List.mem_singleton] at hx
          subst hx
          exact hn
      exact Progress.trans hmk (Progress.widen hn ih)
  | case6 sd n cs rest st files h st2 fls h1 p h2 ih =>
      have hn : isDotName n = false := by simpa using h
      rw [genIter_dir_err2 hn h1 h2]
      rw [h1] at ih
      obtain ⟨ih1, _, ih3, ih4⟩ := ih
      have hmk : Progress sd st (addWrite (.mkdirEvent (sd ++ [n])) st) := by
        refine progress_addWrite_mkdir (sd ++ [n]) st ?_
        intro hcl comp hcomp
        rcases List.mem_append.mp hcomp with hx | hx
        · exact hcl comp hx
        · rw [List.mem_singleton] at hx
          subst hx
          exact hn
      have hflcl : ∀ nc ∈ fls, isDotName nc.1 = false := by
        refine ih4 ?_
        intro nc hnc
        simp at hnc
      have hgf := genFiles_err_spec h2 hflcl
      exact Progress.trans hmk
        (Progress.trans (Progress.widen hn ih1) (Progress.widen hn hgf))
  | case7 sd n cs rest st files h st2 fls h1 st3 h2 ih ihrest =>
      have hn : isDotName n = false := by simpa using h
      rw [genIter_dir_ok hn h1 h2]
      rw [h1] at ih
      obtain ⟨ih1, ih2, ih3, ih4⟩ := ih
      have hmk : Progress sd st (addWrite (.mkdirEvent (sd ++ [n])) st) := by
        refine progress_addWrite_mkdir (sd ++ [n]) st ?_
        intro hcl comp hcomp
        rcases List.mem_append.mp hcomp with hx | hx
        · exact hcl comp hx
        · rw [List.mem_singleton] at hx
          subst hx
          exact hn
      have hflcl : ∀ nc ∈ fls, isDotName nc.1 = false := by
        refine ih4 ?_
        intro nc hnc
        simp at hnc
      obtain ⟨hgf1, hgf2⟩ := genFiles_ok_spec h2 hflcl
      have hpre : Progress sd st st3 :=
        Progress.trans hmk
          (Progress.trans (Progress.widen hn ih1) (Progress.widen hn hgf1))
      have ih2' : st2.blogPosts =
          (addWrite (.mkdirEvent (sd ++ [n])) st).blogPosts ++ blogMetasOf (sd ++ [n]) cs := ih2
      have ih3' : fls = collectFiles cs := by simpa using ih3
      have hadd : (addWrite (.mkdirEvent (sd ++ [n])) st).blogPosts = st.blogPosts := rfl
      have hbp3 : st3.blogPosts = st.blogPosts ++
          (blogMetasOf (sd ++ [n]) cs ++ fileMetas (sd ++ [n]) (collectFiles cs)) := by
        rw [hgf2, ih2', hadd, ih3', List.append_assoc]
      cases hres : genIter c env sd rest st3 files with
      | error p =>
          rw [hres] at ihrest
          exact Progress.trans hpre ihrest
      | ok r =>
          rw [hres] at ihrest
          obtain ⟨ir1, ir2, ir3, ir4⟩ := ihrest
          refine ⟨Progress.trans hpre ir1, ?_, ?_, ir4⟩
          · rw [ir2, hbp3]
            have : blogMetasOf sd (.cons (.dir n cs) rest) =
                (blogMetasOf (sd ++ [n]) cs ++ fileMetas (sd ++ [n]) (collectFiles cs))
                  ++ blogMetasOf sd rest := by
              simp [blogMetasOf, hn]
            rw [this, List.append_assoc]
          · rw [ir3]
            simp [collectFiles]

theorem genIter_ok_spec {c : Collab} {env : String} {sd : List String} {es : EntryList}
    {st st' : BuildState} {files files' : List (String × String)}
    (h : genIter c env sd es st files = .ok (st', files')) :
    Progress sd st st' ∧
    st'.blogPosts = st.blogPosts ++ blogMetasOf sd es ∧
    files' = files ++ collectFiles es ∧
    ((∀ nc ∈ files, isDotName nc.1 = false) → ∀ nc ∈ files', isDotName nc.1 = false) := by
  have hs := genIter_spec c env sd es st files
  rw [h] at hs
  exact hs

theorem genIter_err_spec {c : Collab} {env : String} {sd : List String} {es : EntryList}
    {st : BuildState} {files : List (String × String)} {p : BuildState × BuildError}
    (h : genIter c env sd es st files = .error p) :
    Progress sd st p.1 := by
  have hs := genIter_spec c env sd es st files
  rw [h] at hs
  exact hs

/-! ### Build-level composition -/

/-- Weak growth relation between build states: the blog-post list and the
write trace only receive appends. -/
def Mono (st st' : BuildState) : Prop :=
  (∃ b, st'.blogPosts = st.blogPosts ++ b) ∧ (∃ w, st'.writes = st.writes ++ w)

theorem monoId (st : BuildState) : Mono st st :=
  ⟨⟨[], by simp⟩, ⟨[], by simp⟩⟩

theorem monoComp {st1 st2 st3 : BuildState} (h1 : Mono st1 st2) (h2 : Mono st2 st3) :
    Mono st1 st3 := by
  obtain ⟨⟨b1, hb1⟩, ⟨w1, hw1⟩⟩ := h1
  obtain ⟨⟨b2, hb2⟩, ⟨w2, hw2⟩⟩ := h2
  exact ⟨⟨b1 ++ b2, by rw [hb2, hb1, List.append_assoc]⟩,
    ⟨w1 ++ w2, by rw [hw2, hw1, List.append_assoc]⟩⟩

theorem Progress.toMono {sd : List String} {st st' : BuildState}
    (h : Progress sd st st') : Mono st st' := by
  obtain ⟨dl, hw, _, _, hb, _, _⟩ := h
  exact ⟨hb, ⟨dl, hw⟩⟩

theorem Mono.mem_writes {st st' : BuildState} (h : Mono st st') {w : WriteEvent}
    (hw : w ∈ st.writes) : w ∈ st'.writes := by
  obtain ⟨_, ⟨ws, hws⟩⟩ := h
  rw [hws]
  exact List.mem_append_left _ hw

theorem Mono.mem_blogPosts {st st' : BuildState} (h : Mono st st') {m : PageMetadata}
    (hm : m ∈ st.blogPosts) : m ∈ st'.blogPosts := by
  obtain ⟨⟨b, hb⟩, _⟩ := h
  rw [hb]
  exact List.mem_append_left _ hm

theorem genFiles_mono {c : Collab} {env : String} {sd : List String} :
    ∀ (fls : List (String × String)) (st st' : BuildState),
      genFiles c env sd fls st = .ok st' → Mono st st' := by
  intro fls
  induction fls with
  | nil =>
      intro st st' h
      rw [show genFiles c env sd [] st = .ok st from rfl] at h
      cases h
      exact monoId st
  | cons nc rest ih =>
      intro st st' h
      obtain ⟨n, cont⟩ := nc
      by_cases hidx : n = INDEX_MD
      · subst hidx
        cases hgp : genPage c env sd cont st with
        | error p =>
            rw [genFiles_cons_idx_err hgp] at h
            cases h
        | ok stJ =>
            rw [genFiles_cons_idx_ok hgp] at h
            obtain ⟨_, _, _, _, hbp, _, hw, _⟩ := genPage_ok_spec hgp
            exact monoComp ⟨⟨_, hbp⟩, ⟨_, hw⟩⟩ (ih stJ st' h)
      · by_cases hnot : n = NOTES_MD
        · subst hnot
          rw [genFiles_cons_notes] at h
          exact ih st st' h
        · rw [genFiles_cons_other hidx hnot] at h
          exact monoComp ⟨⟨[], by simp [addWrite]⟩, ⟨_, rfl⟩⟩ (ih _ st' h)

theorem mkdir_progress (sd : List String) (n : String) (st : BuildState)
    (hn : isDotName n = false) :
    Progress sd st (addWrite (.mkdirEvent (sd ++ [n])) st) := by
  refine progress_addWrite_mkdir (sd ++ [n]) st ?_
  intro hcl comp hcomp
  rcases List.mem_append.mp hcomp with hx | hx
  · exact hcl comp hx
  · rw [List.mem_singleton] at hx
    subst hx
    exact hn

theorem mkdir_root_progress (st : BuildState) :
    Progress [] st (addWrite (.mkdirEvent ([] : List String)) st) := by
  refine progress_addWrite_mkdir [] st ?_
  intro _ comp hcomp
  simp at hcomp

theorem copyAssets_progress (assets : EntryList) (st : BuildState) :
    Progress [] st (copyAssets assets st) ∧
    (copyAssets assets st).shaData = st.shaData ∧
    (copyAssets assets st).blogPosts = st.blogPosts := by
  obtain ⟨h1, h2, h3⟩ := copyIter_spec [] assets (addWrite (.mkdirEvent []) st)
  refine ⟨Progress.trans (mkdir_root_progress st) h1, ?_, ?_⟩
  · rw [copyAssets, h2]
    rfl
  · rw [copyAssets, h3]
    rfl

theorem genPages_err1 {c : Collab} {env : String} {pages : EntryList} {st : BuildState}
    {p : BuildState × BuildError}
    (h : genIter c env [] pages (addWrite (.mkdirEvent []) st) [] = .error p) :
    genPages c env pages st = .error p := by
  simp only [genPages]
  rw [h]

theorem genPages_ok_eq {c : Collab} {env : String} {pages : EntryList} {st : BuildState}
    {stR : BuildState} {flsR : List (String × String)}
    (h : genIter c env [] pages (addWrite (.mkdirEvent []) st) [] = .ok (stR, flsR)) :
    genPages c env pages st = genFiles c env [] flsR stR := by
  simp only [genPages]
  rw [h]

theorem genPages_ok_destruct {c : Collab} {env : String} {pages : EntryList}
    {st stF : BuildState} (h : genPages c env pages st = .ok stF) :
    ∃ stR flsR, genIter c env [] pages (addWrite (.mkdirEvent []) st) [] = .ok (stR, flsR) ∧
      genFiles c env [] flsR stR = .ok stF := by
  cases hres : genIter c env [] pages (addWrite (.mkdirEvent []) st) [] with
  | error p =>
      rw [genPages_err1 hres] at h
      cases h
  | ok r =>
      obtain ⟨stR, flsR⟩ := r
      rw [genPages_ok_eq hres] at h
      exact ⟨stR, flsR, rfl, h⟩

theorem genIter_root_files_clean {c : Collab} {env : String} {pages : EntryList}
    {st stR : BuildState} {flsR : List (String × String)}
    (h : genIter c env [] pages st [] = .ok (stR, flsR)) :
    ∀ nc ∈ flsR, isDotName nc.1 = false := by
  obtain ⟨_, _, _, h4⟩ := genIter_ok_spec h
  refine h4 ?_
  intro nc hnc
  simp at hnc

theorem genPages_progress {c : Collab} {env : String} {pages : EntryList} {st : BuildState} :
    (match genPages c env pages st with
     | .error p => Progress [] st p.1
     | .ok stF => Progress [] st stF) := by
  cases hres : genIter c env [] pages (addWrite (.mkdirEvent []) st) [] with
  | error p =>
      rw [genPages_err1 hres]
      exact Progress.trans (mkdir_root_progress st) (genIter_err_spec hres)
  | ok r =>
      obtain ⟨stR, flsR⟩ := r
      rw [genPages_ok_eq hres]
      have hiter : Progress [] st stR :=
        Progress.trans (mkdir_root_progress st) (genIter_ok_spec hres).1
      have hcl := genIter_root_files_clean hres
      cases hgf : genFiles c env [] flsR stR with
      | error p =>
          exact Progress.trans hiter (genFiles_err_spec hgf hcl)
      | ok stF =>
          exact Progress.trans hiter (genFiles_ok_spec hgf hcl).1

theorem build_ok_destruct {c : Collab} {env : String} {assets pages : EntryList}
    {w : List WriteEvent} (h : build c env assets pages = (w, none)) :
    ∃ stF, genPages c env pages (copyAssets assets ⟨[], [], []⟩) = .ok stF ∧
      w = stF.writes ++ [.shaWrite (concatChunks stF.shaData)] := by
  cases hg : genPages c env pages (copyAssets assets ⟨[], [], []⟩) with
  | error p =>
      rw [build] at h
      rw [hg] at h
      simp at h
  | ok stF =>
      rw [build] at h
      rw [hg] at h
      simp only [Prod.mk.injEq] at h
      exact ⟨stF, rfl, h.1.symm⟩

theorem build_err_destruct {c : Collab} {env : String} {assets pages : EntryList}
    {w : List WriteEvent} {e : BuildError} (h : build c env assets pages = (w, some e)) :
    ∃ st2, genPages c env pages (copyAssets assets ⟨[], [], []⟩) = .error (st2, e) ∧
      w = st2.writes := by
  cases hg : genPages c env pages (copyAssets assets ⟨[], [], []⟩) with
  | error p =>
      rw [build] at h
      rw [hg] at h
      simp only [Prod.mk.injEq] at h
      obtain ⟨stp, ep⟩ := p
      simp only [Option.some.injEq] at h
      exact ⟨stp, by rw [← h.2], h.1.symm⟩
  | ok stF =>
      rw [build] at h
      rw [hg] at h
      simp at h

/-- Every state a build reaches extends the empty initial state by a delta
satisfying all the trace invariants; in particular the final trace itself is
such a delta. -/
theorem build_trace_progress (c : Collab) (env : String) (assets pages : EntryList) :
    (match build c env assets pages with
     | (w, none) => ∃ stF, w = stF.writes ++ [.shaWrite (concatChunks stF.shaData)] ∧
         Progress [] ⟨[], [], []⟩ stF
     | (w, some _) => ∃ st2, w = st2.writes ∧ Progress [] ⟨[], [], []⟩ st2) := by
  have hca := (copyAssets_progress assets ⟨[], [], []⟩).1
  cases hb : build c env assets pages with
  | mk w oe =>
      cases oe with
      | none =>
          obtain ⟨stF, hg, hw⟩ := build_ok_destruct hb
          have hgp := @genPages_progress c env pages (copyAssets assets ⟨[], [], []⟩)
          rw [hg] at hgp
          exact ⟨stF, hw, Progress.trans hca hgp⟩
      | some e =>
          obtain ⟨st2, hg, hw⟩ := build_err_destruct hb
          have hgp := @genPages_progress c env pages (copyAssets assets ⟨[], [], []⟩)
          rw [hg] at hgp
          exact ⟨st2, hw, Progress.trans hca hgp⟩

/-! ### Reaching a particular page inside the walk -/

theorem collectFiles_mem {n cont : String} {es : EntryList}
    (hm : MemE (.file n cont) es) (hn : isDotName n = false) :
    (n, cont) ∈ collectFiles es := by
  induction hm with
  | head es =>
      simp [collectFiles, hn]
  | tail e' es hm ih =>
      cases e' with
      | file n' c' =>
          by_cases hd : isDotName n'
          · simpa [collectFiles, hd] using ih
          · simp only [collectFiles, Bool.not_eq_true] at hd
            simp [collectFiles, hd]
            right
            simpa using ih
      | dir n' cs' =>
          simpa [collectFiles] using ih

theorem genPage_err_of_meta {c : Collab} {env : String} {sd : List String} {cont : String}
    {e : BuildError} (h : pageMeta sd cont = .error e) (st : BuildState) :
    genPage c env sd cont st = .error (st, e) := by
  rw [genPage, h]

theorem genFiles_fail {c : Collab} {env : String} {sd : List String} {cont : String}
    {e : BuildError} (hbad : pageMeta sd cont = .error e) :
    ∀ (fls : List (String × String)) (st : BuildState), (INDEX_MD, cont) ∈ fls →
      ∃ p, genFiles c env sd fls st = .error p := by
  intro fls
  induction fls with
  | nil =>
      intro st hm
      simp at hm
  | cons nc rest ih =>
      intro st hm
      obtain ⟨n, c0⟩ := nc
      rcases List.mem_cons.mp hm with he | hm'
      · have hn : n = INDEX_MD := (congrArg Prod.fst he).symm
        have hc : c0 = cont := (congrArg Prod.snd he).symm
        subst hn
        subst hc
        exact ⟨(st, e), genFiles_cons_idx_err (genPage_err_of_meta hbad st)⟩
      · by_cases hidx : n = INDEX_MD
        · subst hidx
          cases hgp : genPage c env sd c0 st with
          | error p =>
              exact ⟨p, genFiles_cons_idx_err hgp⟩
          | ok stJ =>
              obtain ⟨p, hp⟩ := ih stJ hm'
              exact ⟨p, by rw [genFiles_cons_idx_ok hgp]; exact hp⟩
        · by_cases hnot : n = NOTES_MD
          · subst hnot
            obtain ⟨p, hp⟩ := ih st hm'
            exact ⟨p, by rw [genFiles_cons_notes]; exact hp⟩
          · obtain ⟨p, hp⟩ := ih (addWrite (.copyPage (sd ++ [n]) (sd ++ [n])) st) hm'
            exact ⟨p, by rw [genFiles_cons_other hidx hnot]; exact hp⟩

theorem genFiles_reach {c : Collab} {env : String} {sd : List String} {cont : String} :
    ∀ (fls : List (String × String)) (st st' : BuildState),
      genFiles c env sd fls st = .ok st' → (INDEX_MD, cont) ∈ fls →
      ∃ stI stJ, genPage c env sd cont stI = .ok stJ ∧ Mono st stI ∧ Mono stJ st' := by
  intro fls
  induction fls with
  | nil =>
      intro st st' _ hm
      simp at hm
  | cons nc rest ih =>
      intro st st' h hm
      obtain ⟨n, c0⟩ := nc
      rcases List.mem_cons.mp hm with he | hm'
      · have hn : n = INDEX_MD := (congrArg Prod.fst he).symm
        have hc : cont = c0 := congrArg Prod.snd he
        subst hn
        subst hc
        cases hgp : genPage c env sd cont st with
        | error p =>
            rw [genFiles_cons_idx_err hgp] at h
            cases h
        | ok stJ =>
            rw [genFiles_cons_idx_ok hgp] at h
            exact ⟨st, stJ, hgp, monoId st, genFiles_mono rest stJ st' h⟩
      · by_cases hidx : n = INDEX_MD
        · subst hidx
          cases hgp : genPage c env sd c0 st with
          | error p =>
              rw [genFiles_cons_idx_err hgp] at h
              cases h
          | ok stJ =>
              rw [genFiles_cons_idx_ok hgp] at h
              obtain ⟨stI, stJ', hg, hm1, hm2⟩ := ih stJ st' h hm'
              obtain ⟨_, _, _, _, hbp, _, hw, _⟩ := genPage_ok_spec hgp
              exact ⟨stI, stJ', hg, monoComp ⟨⟨_, hbp⟩, ⟨_, hw⟩⟩ hm1, hm2⟩
        · by_cases hnot : n = NOTES_MD
          · subst hnot
            rw [genFiles_cons_notes] at h
            exact ih st st' h hm'
          · rw [genFiles_cons_other hidx hnot] at h
            obtain ⟨stI, stJ', hg, hm1, hm2⟩ := ih _ st' h hm'
            exact ⟨stI, stJ', hg,
              monoComp ⟨⟨[], by simp [addWrite]⟩, ⟨_, rfl⟩⟩ hm1, hm2⟩

theorem genIter_sub {c : Collab} {env : String} {n : String} {cs : EntryList} :
    ∀ {es : EntryList}, MemE (.dir n cs) es → isDotName n = false →
    ∀ sd (st : BuildState) files st' files',
      genIter c env sd es st files = .ok (st', files') →
      ∃ stA stB flsB stC,
        genIter c env (sd ++ [n]) cs (addWrite (.mkdirEvent (sd ++ [n])) stA) [] =
          .ok (stB, flsB) ∧
        genFiles c env (sd ++ [n]) flsB stB = .ok stC ∧
        Mono stC st' := by
  intro es hmem hn
  induction hmem with
  | head es =>
      intro sd st files st' files' h
      cases hin : genIter c env (sd ++ [n]) cs (addWrite (.mkdirEvent (sd ++ [n])) st) [] with
      | error p =>
          rw [genIter_dir_err1 hn hin] at h
          cases h
      | ok r =>
          obtain ⟨stB, flsB⟩ := r
          cases hgf : genFiles c env (sd ++ [n]) flsB stB with
          | error p =>
              rw [genIter_dir_err2 hn hin hgf] at h
              cases h
          | ok stC =>
              rw [genIter_dir_ok hn hin hgf] at h
              exact ⟨st, stB, flsB, stC, hin, hgf,
                (genIter_ok_spec h).1.toMono⟩
  | tail e' es hm ih =>
      intro sd st files st' files' h
      cases e' with
      | file n' c' =>
          by_cases hd : isDotName n'
          · rw [genIter_file_dot hd] at h
            exact ih sd st files st' files' h
          · have hd' : isDotName n' = false := by simpa using hd
            rw [genIter_file hd'] at h
            exact ih sd st _ st' files' h
      | dir n' cs' =>
          by_cases hd : isDotName n'
          · rw [genIter_dir_dot hd] at h
            exact ih sd st files st' files' h
          · have hd' : isDotName n' = false := by simpa using hd
            cases hin : genIter c env (sd ++ [n']) cs'
                (addWrite (.mkdirEvent (sd ++ [n'])) st) [] with
            | error p =>
                rw [genIter_dir_err1 hd' hin] at h
                cases h
            | ok r =>
                obtain ⟨stB', flsB'⟩ := r
                cases hgf : genFiles c env (sd ++ [n']) flsB' stB' with
                | error p =>
                    rw [genIter_dir_err2 hd' hin hgf] at h
                    cases h
                | ok stC' =>
                    rw [genIter_dir_ok hd' hin hgf] at h
                    exact ih sd stC' files st' files' h

theorem genIter_fail {c : Collab} {env : String} {cont : String} {e : BuildError}
    {es : EntryList} {rp : List String} (hp : HasPage es rp cont) :
    ∀ sd, pageMeta (sd ++ rp) cont = .error e →
    ∀ (st : BuildState) files st' files',
      genIter c env sd es st files = .ok (st', files') →
      rp = [] ∧ (INDEX_MD, cont) ∈ files' := by
  induction hp with
  | here es hcont hmem =>
      intro sd hbad st files st' files' h
      obtain ⟨_, _, hfl, _⟩ := genIter_ok_spec h
      refine ⟨rfl, ?_⟩
      rw [hfl]
      exact List.mem_append_right _ (collectFiles_mem hmem (by decide))
  | there es n cs rp' hcont hmem hn hp' ih =>
      intro sd hbad st files st' files' h
      obtain ⟨stA, stB, flsB, stC, hin, hgf, _⟩ :=
        genIter_sub hmem hn sd st files st' files' h
      have hbad' : pageMeta ((sd ++ [n]) ++ rp') hcont = .error e := by
        rw [List.append_assoc]
        simpa using hbad
      obtain ⟨hrp', hmemf⟩ := ih (sd ++ [n]) hbad' _ [] stB flsB hin
      subst hrp'
      rw [List.append_nil] at hbad'
      obtain ⟨p, hfail⟩ := genFiles_fail hbad' flsB stB hmemf
      rw [hgf] at hfail
      cases hfail

/-! ### The hash manifest digest -/

theorem concatChunks_append (a b : List String) :
    concatChunks (a ++ b) = concatChunks a ++ concatChunks b := by
  induction a with
  | nil =>
      apply String.ext
      simp [concatChunks, String.data_append]
  | cons x a ih =>
      show x ++ concatChunks (a ++ b) = (x ++ concatChunks a) ++ concatChunks b
      rw [ih, String.append_assoc]

theorem concatChunks_middle_ne {pre post : List String} {x y : String} (hxy : x ≠ y) :
    concatChunks (pre ++ x :: post) ≠ concatChunks (pre ++ y :: post) := by
  intro h
  apply hxy
  rw [show pre ++ x :: post = pre ++ ([x] ++ post) from rfl,
      show pre ++ y :: post = pre ++ ([y] ++ post) from rfl,
      concatChunks_append, concatChunks_append, concatChunks_append, concatChunks_append] at h
  have hd := congrArg String.data h
  simp only [String.data_append] at hd
  have h1 := List.append_cancel_left hd
  have h2 := List.append_cancel_right h1
  apply String.ext
  simpa [concatChunks, String.data_append] using h2

theorem build_digest_char {c : Collab} {env : String} {assets pages : EntryList}
    {w : List WriteEvent} (h : build c env assets pages = (w, none)) :
    digestsOf w = [concatChunks (pageContents w)] := by
  have ht := build_trace_progress c env assets pages
  rw [h] at ht
  obtain ⟨stF, hw, hpr⟩ := ht
  obtain ⟨dl, hwr, hsh, hdg, _, _, _⟩ := hpr
  have hwr' : stF.writes = dl := by simpa using hwr
  have hsh' : stF.shaData = pageContents stF.writes := by
    rw [hwr']
    simpa using hsh
  have hdg' : digestsOf stF.writes = [] := by
    rw [hwr']
    exact hdg
  rw [hw, digestsOf_append, hdg', pageContents_append, hsh']
  simp [digestsOf, pageContents]

theorem cleanPath_nil : cleanPath ([] : List String) := by
  intro comp hcomp
  simp at hcomp

theorem build_trace_good (c : Collab) (env : String) (assets pages : EntryList) :
    CleanEvents (build c env assets pages).1 ∧ PagesSrcOk (build c env assets pages).1 := by
  have ht := build_trace_progress c env assets pages
  cases hb : build c env assets pages with
  | mk w oe =>
      rw [hb] at ht
      cases oe with
      | none =>
          obtain ⟨stF, hw, hpr⟩ := ht
          obtain ⟨dl, hwr, _, _, _, hcl, hno⟩ := hpr
          have hwr' : stF.writes = dl := by simpa using hwr
          have hcle := hcl cleanPath_nil
          constructor
          · intro x hx
            simp only [hw, hwr'] at hx
            rcases List.mem_append.mp hx with hx | hx
            · exact hcle x hx
            · rw [List.mem_singleton] at hx
              subst hx
              intro p hp
              simp [eventPaths] at hp
          · intro x hx
            simp only [hw, hwr'] at hx
            rcases List.mem_append.mp hx with hx | hx
            · exact hno x hx
            · rw [List.mem_singleton] at hx
              subst hx
              constructor
              · simp [pagesSrcName]
              · intro d' s' c0 he
                exact absurd he (by simp)
      | some e =>
          obtain ⟨st2, hw, hpr⟩ := ht
          obtain ⟨dl, hwr, _, _, _, hcl, hno⟩ := hpr
          have hwr' : st2.writes = dl := by simpa using hwr
          have hcle := hcl cleanPath_nil
          constructor
          · intro x hx
            rw [hw, hwr'] at hx
            exact hcle x hx
          · intro x hx
            rw [hw, hwr'] at hx
            exact hno x hx

theorem build_err_no_sha {c : Collab} {env : String} {assets pages : EntryList}
    {w : List WriteEvent} {e : BuildError} (h : build c env assets pages = (w, some e)) :
    ∀ d, WriteEvent.shaWrite d ∉ w := by
  have ht := build_trace_progress c env assets pages
  rw [h] at ht
  obtain ⟨st2, hw, hpr⟩ := ht
  obtain ⟨dl, hwr, _, hdg, _, _, _⟩ := hpr
  have hwr' : st2.writes = dl := by simpa using hwr
  intro d
  rw [hw, hwr']
  exact not_shaWrite_of_digestsOf_nil hdg d

/-! ### Page metadata shape lemmas -/

theorem mkPageMetadata_ok_shape {href title : String} {pt : PageType} {d : Option String}
    {m : PageMetadata} (h : mkPageMetadata href pt title d = .ok m) :
    m = ⟨href, pt, title, d⟩ ∧
    (pt = PageType.blog_post → ∃ s, d = some s ∧ dateReMatch s = true) := by
  by_cases hh : href = ""
  · rw [mkPageMetadata.eq_def, if_pos hh] at h
    cases h
  · rw [mkPageMetadata.eq_def, if_neg hh] at h
    by_cases ht : title = ""
    · rw [if_pos ht] at h
      cases h
    · rw [if_neg ht] at h
      by_cases hpt : pt = PageType.blog_post
      · rw [if_pos hpt] at h
        cases d with
        | none => cases h
        | some s =>
            have h2 : (if dateReMatch s = true then
                Except.ok (⟨href, pt, title, some s⟩ : PageMetadata)
              else Except.error (BuildError.assertFailed
                "Blog post date must be in the format YYYY-MM-DD")) = Except.ok m := h
            by_cases hm : dateReMatch s
            · rw [if_pos hm] at h2
              injection h2 with h'
              exact ⟨h'.symm, fun _ => ⟨s, rfl, hm⟩⟩
            · rw [if_neg hm] at h2
              cases h2
      · rw [if_neg hpt] at h
        injection h with h'
        exact ⟨h'.symm, fun hc => absurd hc hpt⟩

theorem mkPageMetadata_ok_iff {href title : String} {d : Option String}
    (hh : href ≠ "") (ht : title ≠ "") :
    (∃ m, mkPageMetadata href PageType.blog_post title d = .ok m) ↔
      ∃ s, d = some s ∧ dateReMatch s = true := by
  rw [mkPageMetadata.eq_def, if_neg hh, if_neg ht, if_pos rfl]
  cases d with
  | none => simp
  | some s =>
      by_cases hm : dateReMatch s <;> simp [hm]

theorem pageMeta_ok_shape {sd : List String} {cont : String} {meta : PageMetadata}
    {md : String} (h : pageMeta sd cont = .ok (meta, md)) :
    meta.page_type = PageType.blog_post → ∃ s, meta.date = some s ∧ dateReMatch s = true := by
  intro hbp
  rw [pageMeta] at h
  split at h
  · exact absurd h (by simp)
  · split at h
    · exact absurd h (by simp)
    · split at h
      · exact absurd h (by simp)
      · split at h
        · exact absurd h (by simp)
        · split at h
          · exact absurd h (by simp)
          next m heq5 =>
            simp only [Except.ok.injEq, Prod.mk.injEq] at h
            obtain ⟨hm, _⟩ := h
            obtain ⟨hshape, hdate⟩ := mkPageMetadata_ok_shape heq5
            subst hm
            subst hshape
            exact hdate hbp

theorem metaOf?_some {sd : List String} {cont : String} {m : PageMetadata}
    (h : metaOf? sd cont = some m) :
    ∃ md, pageMeta sd cont = .ok (m, md) ∧ m.page_type = PageType.blog_post := by
  rw [metaOf?] at h
  cases hpm : pageMeta sd cont with
  | error e =>
      rw [hpm] at h
      simp at h
  | ok pr =>
      rw [hpm] at h
      by_cases hbp : pr.1.page_type = PageType.blog_post
      · simp only [hbp, reduceIte, Option.some.injEq] at h
        subst h
        exact ⟨pr.2, rfl, hbp⟩
      · simp only [hbp, reduceIte] at h
        cases h

/-! ### The watcher transition-system invariant -/

theorem bumpN_self (f : WatcherId → Nat) (w : WatcherId) : bumpN f w w = f w + 1 := by
  simp [bumpN]

theorem bumpN_other (f : WatcherId → Nat) (w x : WatcherId) (h : x ≠ w) :
    bumpN f w x = f x := by
  simp [bumpN, h]

theorem decN_self (f : WatcherId → Nat) (w : WatcherId) : decN f w w = f w - 1 := by
  simp [decN]

theorem decN_other (f : WatcherId → Nat) (w x : WatcherId) (h : x ≠ w) :
    decN f w x = f x := by
  simp [decN, h]

theorem setB_self (f : WatcherId → Bool) (w : WatcherId) (b : Bool) : setB f w b w = b := by
  simp [setB]

theorem setB_other (f : WatcherId → Bool) (w x : WatcherId) (b : Bool) (h : x ≠ w) :
    setB f w b x = f x := by
  simp [setB, h]

theorem dev_lock_inv {s : DevState} (h : DevReach s) :
    (∀ w, s.rebuilding w = true → s.lockHolder = some w) ∧
    (∀ w, s.detected w = s.pending w + s.completed w +
      (if s.rebuilding w = true then 1 else 0)) := by
  induction h with
  | init =>
      constructor
      · intro w hw
        simp [initDevState] at hw
      · intro w
        simp [initDevState]
  | @step s s' hr hs ih =>
      obtain ⟨ih1, ih2⟩ := ih
      cases hs with
      | detect w =>
          refine ⟨fun x hx => ih1 x hx, ?_⟩
          intro x
          have h2 := ih2 x
          show bumpN s.detected w x = bumpN s.pending w x + s.completed x +
            (if s.rebuilding x = true then 1 else 0)
          by_cases hxw : x = w
          · subst hxw
            rw [bumpN_self, bumpN_self]
            omega
          · rw [bumpN_other _ _ _ hxw, bumpN_other _ _ _ hxw]
            exact h2
      | acquire w hrb hpend hlock =>
          constructor
          · intro x hx
            have hx2 : setB s.rebuilding w true x = true := hx
            show some w = some x
            by_cases hxw : x = w
            · rw [hxw]
            · rw [setB_other _ _ _ _ hxw] at hx2
              rw [ih1 x hx2] at hlock
              cases hlock
          · intro x
            have h2 := ih2 x
            show s.detected x = decN s.pending w x + s.completed x +
              (if setB s.rebuilding w true x = true then 1 else 0)
            by_cases hxw : x = w
            · subst hxw
              rw [decN_self, setB_self]
              rw [hrb] at h2
              simp only [Bool.false_eq_true, if_false] at h2
              simp only [if_true]
              omega
            · rw [decN_other _ _ _ hxw, setB_other _ _ _ _ hxw]
              exact h2
      | release w hrb hlock =>
          constructor
          · intro x hx
            have hx2 : setB s.rebuilding w false x = true := hx
            by_cases hxw : x = w
            · subst hxw
              rw [setB_self] at hx2
              cases hx2
            · rw [setB_other _ _ _ _ hxw] at hx2
              have hxl := ih1 x hx2
              rw [hlock] at hxl
              injection hxl with hxx
              exact absurd hxx.symm hxw
          · intro x
            have h2 := ih2 x
            show s.detected x = s.pending x + bumpN s.completed w x +
              (if setB s.rebuilding w false x = true then 1 else 0)
            by_cases hxw : x = w
            · subst hxw
              rw [bumpN_self, setB_self]
              rw [hrb] at h2
              simp only [if_true] at h2
              simp only [Bool.false_eq_true, if_false]
              omega
            · rw [bumpN_other _ _ _ hxw, setB_other _ _ _ _ hxw]
              exact h2

/-! ### Unfolding equations for `parseFrontMatter` -/

theorem parseFrontMatter_bad_first {p : List String} {md l0 : String} {ls : List String}
    (hl : splitlines md = l0 :: ls) (hne : l0 ≠ FRONT_MATTER_DELIM) :
    parseFrontMatter p md = .error (.missingFrontMatter p) := by
  rw [parseFrontMatter.eq_def, hl]
  exact if_neg hne

theorem parseFrontMatter_eq_delim {p : List String} {md : String} {rest : List String}
    (hsp : splitlines md = FRONT_MATTER_DELIM :: rest) :
    parseFrontMatter p md =
      (match parseFMLoop [] rest with
       | .error e => .error e
       | .ok pr => .ok (pr.1, joinLines pr.2)) := by
  rw [parseFrontMatter.eq_def, hsp]
  show (if FRONT_MATTER_DELIM = FRONT_MATTER_DELIM then
      (match parseFMLoop [] rest with
       | Except.error e => (Except.error e : Except BuildError (FrontMatter × String))
       | Except.ok (fm, body) => Except.ok (fm, joinLines body))
    else Except.error (BuildError.missingFrontMatter p)) = _
  rw [if_pos rfl]
  cases parseFMLoop [] rest with
  | error e => rfl
  | ok pr => rfl

/-! ### Claim theorems -/

/-- C1: for every build, the blog index page (`pages/blog/index.md`) is
rendered only after the metadata of every blog_post page in subdirectories of
the blog directory has been appended to the context's blog-post list: in every
successful build over ANY sibling iteration order, the generated blog index
page's content embeds a blog-index rendering over a list `L` that contains the
metadata of all posts discovered in `blog`'s subdirectories. -/
theorem c1_blog_index_rendered_after_all_posts
    {c : Collab} {env : String} {assets pages bcs : EntryList}
    {ws : List WriteEvent} {bic : String}
    (hblog : MemE (.dir "blog" bcs) pages)
    (hidx : (INDEX_MD, bic) ∈ collectFiles bcs)
    (hok : build c env assets pages = (ws, none)) :
    ∃ (meta : PageMetadata) (md : String) (L : List PageMetadata),
      WriteEvent.pageWrite ["blog", "index.html"] ["blog", INDEX_MD]
        (c.renderBase meta.title env meta.date
          (c.markdownHtml md ++ c.renderBlogIndex L)) ∈ ws ∧
      ∀ m ∈ blogMetasOf ["blog"] bcs, m ∈ L := by
  obtain ⟨stF, hgp, hw⟩ := build_ok_destruct hok
  obtain ⟨stR, flsR, hiter, hgfR⟩ := genPages_ok_destruct hgp
  obtain ⟨stA, stB, flsB, stC, hin, hgfB, hmonC⟩ :=
    genIter_sub hblog (by decide) [] _ [] stR flsR hiter
  rw [List.nil_append] at hin hgfB
  obtain ⟨hprB, hbpB, hflsB, _⟩ := genIter_ok_spec hin
  have hflsB' : flsB = collectFiles bcs := by simpa using hflsB
  obtain ⟨stI, stJ, hgpI, hmonBI, hmonJC⟩ :=
    genFiles_reach flsB stB stC hgfB (by rw [hflsB']; exact hidx)
  obtain ⟨meta, md, page, hpm, hbpI, hshaI, hwI, hpage⟩ := genPage_ok_spec hgpI
  have hpage' : page = c.renderBase meta.title env meta.date
      (c.markdownHtml md ++
        c.renderBlogIndex (stI.blogPosts ++ (metaOf? ["blog"] bic).toList)) := by
    rw [hpage, if_pos rfl]
  refine ⟨meta, md, stI.blogPosts ++ (metaOf? ["blog"] bic).toList, ?_, ?_⟩
  · have hev : WriteEvent.pageWrite (["blog"] ++ ["index.html"]) (["blog"] ++ [INDEX_MD]) page
        ∈ stJ.writes := by
      rw [hwI]
      exact List.mem_append_right _ (by simp)
    rw [hpage'] at hev
    have h2 : WriteEvent.pageWrite ["blog", "index.html"] ["blog", INDEX_MD]
        (c.renderBase meta.title env meta.date
          (c.markdownHtml md ++
            c.renderBlogIndex (stI.blogPosts ++ (metaOf? ["blog"] bic).toList)))
        ∈ stJ.writes := hev
    have h3 := (genFiles_mono flsR stR stF hgfR).mem_writes
      (hmonC.mem_writes (hmonJC.mem_writes h2))
    rw [hw]
    exact List.mem_append_left _ h3
  · intro m hm
    have hmB : m ∈ stB.blogPosts := by
      rw [hbpB]
      exact List.mem_append_right _ hm
    exact List.mem_append_left _ (hmonBI.mem_blogPosts hmB)

/-- C1 witness: a concrete build over a blog with one post. -/
theorem c1_witness :
    ∃ (meta : PageMetadata) (md : String) (L : List PageMetadata),
      WriteEvent.pageWrite ["blog", "index.html"] ["blog", INDEX_MD]
        (demoCollab.renderBase meta.title "dev" meta.date
          (demoCollab.markdownHtml md ++ demoCollab.renderBlogIndex L)) ∈
        (build demoCollab "dev" EntryList.nil demoPages).1 ∧
      ∀ m ∈ blogMetasOf ["blog"] demoBlogChildren, m ∈ L :=
  c1_blog_index_rendered_after_all_posts (MemE.head _ _)
    (by decide :
      (INDEX_MD, "---\npage_type: index\ntitle: Blog\n---\nintro") ∈
        collectFiles demoBlogChildren)
    (rfl :
      build demoCollab "dev" EntryList.nil demoPages =
        ((build demoCollab "dev" EntryList.nil demoPages).1, none))

/-- C2 (amended): for well-formed front matter, parsing returns the dict
obtained by inserting the written (trimmed) pairs in order — exactly the
pairs written when the trimmed keys are distinct — and the body is the lines
strictly after the closing delimiter rejoined with newlines (the original
minus the header block, except that a trailing newline of the original is not
restored and a repeated key keeps only its last value). -/
theorem c2_front_matter_round_trip_amended
    (p : List String) (md : String) (mid rest : List String)
    (hsplit : splitlines md = FRONT_MATTER_DELIM :: (mid ++ FRONT_MATTER_DELIM :: rest))
    (hnd : FRONT_MATTER_DELIM ∉ mid)
    (hc : ∀ l ∈ mid, (splitFirstColon l).isSome) :
    parseFrontMatter p md = .ok (dictOfPairs (writtenPairs mid), joinLines rest) ∧
    (((writtenPairs mid).map Prod.fst).Nodup →
      parseFrontMatter p md = .ok (writtenPairs mid, joinLines rest)) := by
  have hloop := parseFMLoop_spec mid rest [] hnd hc
  have hmain : parseFrontMatter p md =
      .ok (dictOfPairs (writtenPairs mid), joinLines rest) := by
    rw [parseFrontMatter_eq_delim hsplit, hloop]
    rfl
  refine ⟨hmain, fun hnodup => ?_⟩
  rw [hmain]
  have heq := foldl_dictInsert_of_nodup (writtenPairs mid) [] hnodup (by intro k _; simp)
  rw [dictOfPairs, heq]
  simp

/-- C2 counterexample: a well-formed header (per the claim's own definition of
well-formedness) with a repeated key and a trailing newline, on which the
parse result is NOT (the key/value pairs written, the original text minus the
header block). -/
theorem c2_counterexample :
    (splitlines "---\na: 1\na: 2\n---\nbody\n" =
        FRONT_MATTER_DELIM :: (["a: 1", "a: 2"] ++ FRONT_MATTER_DELIM :: ["body"]) ∧
      FRONT_MATTER_DELIM ∉ ["a: 1", "a: 2"] ∧
      (∀ l ∈ ["a: 1", "a: 2"], (splitFirstColon l).isSome)) ∧
    writtenPairs ["a: 1", "a: 2"] = [("a", "1"), ("a", "2")] ∧
    originalMinusHeader "---\na: 1\na: 2\n---\nbody\n" = "body\n" ∧
    parseFrontMatter ["pages", "index.md"] "---\na: 1\na: 2\n---\nbody\n" ≠
      .ok (writtenPairs ["a: 1", "a: 2"],
        originalMinusHeader "---\na: 1\na: 2\n---\nbody\n") := by
  refine ⟨⟨?_, ?_, ?_⟩, ?_, ?_, ?_⟩ <;> decide

/-- C2 witness: a distinct-keys header parsed to exactly the written pair. -/
theorem c2_witness :
    parseFrontMatter ["pages", "index.md"] "---\ntitle: Home\n---\nhello" =
      .ok (writtenPairs ["title: Home"], joinLines ["hello"]) :=
  (c2_front_matter_round_trip_amended ["pages", "index.md"] "---\ntitle: Home\n---\nhello"
    ["title: Home"] ["hello"] (by decide) (by decide) (by decide)).2 (by decide)

/-- C3: if a processed `index.md` page's first line is not the front-matter
delimiter, its parse fails with the missing-front-matter error identifying the
offending path, the whole build aborts with an error, and the hash manifest
`dist/sha256.txt` is never written. -/
theorem c3_missing_front_matter_aborts_build
    {c : Collab} {env : String} {assets pages : EntryList} {rp : List String}
    {cont l0 : String} {ls : List String}
    (hp : HasPage pages rp cont)
    (hl : splitlines cont = l0 :: ls)
    (hne : l0 ≠ FRONT_MATTER_DELIM) :
    parseFrontMatter (rp ++ [INDEX_MD]) cont =
      .error (.missingFrontMatter (rp ++ [INDEX_MD])) ∧
    (∃ e, (build c env assets pages).2 = some e) ∧
    (∀ d, WriteEvent.shaWrite d ∉ (build c env assets pages).1) := by
  have hparse : parseFrontMatter (rp ++ [INDEX_MD]) cont =
      .error (.missingFrontMatter (rp ++ [INDEX_MD])) :=
    parseFrontMatter_bad_first hl hne
  have hbad : pageMeta rp cont = .error (.missingFrontMatter (rp ++ [INDEX_MD])) := by
    rw [pageMeta, hparse]
  have hres : ∃ w e, build c env assets pages = (w, some e) := by
    cases hb : build c env assets pages with
    | mk w oe =>
        cases oe with
        | some e => exact ⟨w, e, rfl⟩
        | none =>
            obtain ⟨stF, hgp, hw⟩ := build_ok_destruct hb
            obtain ⟨stR, flsR, hiter, hgfR⟩ := genPages_ok_destruct hgp
            obtain ⟨hrp, hmem⟩ :=
              genIter_fail hp [] (by simpa using hbad) _ [] stR flsR hiter
            subst hrp
            obtain ⟨q, hfl⟩ := genFiles_fail (by simpa using hbad) flsR stR hmem
            rw [hgfR] at hfl
            cases hfl
  obtain ⟨w, e, hb⟩ := hres
  refine ⟨hparse, ⟨e, by rw [hb]⟩, ?_⟩
  intro d
  rw [hb]
  exact build_err_no_sha hb d

/-- C3 witness: a concrete page with no front matter aborts the build. -/
theorem c3_witness :
    parseFrontMatter (([] : List String) ++ [INDEX_MD]) "no front matter here" =
      .error (.missingFrontMatter (([] : List String) ++ [INDEX_MD])) ∧
    (∃ e, (build demoCollab "dev" EntryList.nil demoBadPages).2 = some e) ∧
    (∀ d, WriteEvent.shaWrite d ∉ (build demoCollab "dev" EntryList.nil demoBadPages).1) :=
  c3_missing_front_matter_aborts_build (HasPage.here _ _ (MemE.head _ _))
    (by decide :
      splitlines "no front matter here" = "no front matter here" :: ([] : List String))
    (by decide)

/-- C4 (amended): constructing Page Metadata with `page_type = blog_post`
succeeds exactly when the date is present and a PREFIX of it matches
`digit{4}-digit{2}-digit{2}` — `re.match` anchors at the start only, so
trailing characters are allowed — and every successfully built blog_post
page's date has such a prefix. -/
theorem c4_blog_post_date_validation_amended
    (href title : String) (d : Option String) (hh : href ≠ "") (ht : title ≠ "") :
    ((∃ m, mkPageMetadata href PageType.blog_post title d = .ok m) ↔
       ∃ s, d = some s ∧ dateReMatch s = true) ∧
    (∀ (c : Collab) (env : String) (sd : List String) (cont : String) (st st' : BuildState),
       genPage c env sd cont st = .ok st' →
       ∀ m ∈ st'.blogPosts, m ∈ st.blogPosts ∨
         (m.page_type = PageType.blog_post ∧ ∃ s, m.date = some s ∧ dateReMatch s = true)) := by
  refine ⟨mkPageMetadata_ok_iff hh ht, ?_⟩
  intro c env sd cont st st' hgp m hm
  obtain ⟨meta, md, page, hpm, hbp, _, _, _⟩ := genPage_ok_spec hgp
  rw [hbp] at hm
  rcases List.mem_append.mp hm with hm | hm
  · exact Or.inl hm
  · right
    cases hmo : metaOf? sd cont with
    | none =>
        rw [hmo] at hm
        simp at hm
    | some m' =>
        rw [hmo] at hm
        simp only [Option.toList_some, List.mem_singleton] at hm
        subst hm
        obtain ⟨md', hpm', hbp'⟩ := metaOf?_some hmo
        exact ⟨hbp', pageMeta_ok_shape hpm' hbp'⟩

/-- C4 counterexample: `DATE_RE.match` accepts a date with trailing garbage,
so construction succeeds although the whole string is not exactly a
`YYYY-MM-DD` date, contradicting the claim as stated. -/
theorem c4_counterexample :
    (∃ m, mkPageMetadata "/blog/x/" PageType.blog_post "T" (some "2024-01-019") = .ok m) ∧
    isExactDate "2024-01-019" = false := by
  constructor
  · exact ⟨⟨"/blog/x/", PageType.blog_post, "T", some "2024-01-019"⟩, by decide⟩
  · decide

/-- C4 witness: the amended claim at a concrete well-formed date. -/
theorem c4_witness :
    ((∃ m, mkPageMetadata "/blog/x/" PageType.blog_post "T" (some "2024-01-02") = .ok m) ↔
       ∃ s, (some "2024-01-02" : Option String) = some s ∧ dateReMatch s = true) ∧
    (∀ (c : Collab) (env : String) (sd : List String) (cont : String) (st st' : BuildState),
       genPage c env sd cont st = .ok st' →
       ∀ m ∈ st'.blogPosts, m ∈ st.blogPosts ∨
         (m.page_type = PageType.blog_post ∧ ∃ s, m.date = some s ∧ dateReMatch s = true)) :=
  c4_blog_post_date_validation_amended "/blog/x/" "T" (some "2024-01-02")
    (by decide) (by decide)

/-- C5: the digest written to the hash manifest is a pure deterministic
function of the generated page contents in generation order — two successful
builds generating the same page-content sequence write identical digests, and
changing any single generated page's content changes the digest (the SHA-256
accumulator is modelled by the exact byte stream fed to it). -/
theorem c5_digest_function_of_page_stream
    {c1 c2 : Collab} {env1 env2 : String} {a1 a2 p1 p2 : EntryList}
    {w1 w2 : List WriteEvent}
    (h1 : build c1 env1 a1 p1 = (w1, none)) (h2 : build c2 env2 a2 p2 = (w2, none)) :
    (pageContents w1 = pageContents w2 → digestsOf w1 = digestsOf w2) ∧
    (∀ pre x y post, pageContents w1 = pre ++ x :: post → pageContents w2 = pre ++ y :: post →
       x ≠ y → digestsOf w1 ≠ digestsOf w2) := by
  have hc1 := build_digest_char h1
  have hc2 := build_digest_char h2
  constructor
  · intro heq
    rw [hc1, hc2, heq]
  · intro pre x y post hp1 hp2 hxy
    rw [hc1, hc2, hp1, hp2]
    intro hcontra
    injection hcontra with hh
    exact concatChunks_middle_ne hxy hh

/-- C5 witness: two identical concrete builds write identical digests. -/
theorem c5_witness :
    digestsOf (build demoCollab "dev" EntryList.nil demoPages).1 =
      digestsOf (build demoCollab "dev" EntryList.nil demoPages).1 :=
  (c5_digest_function_of_page_stream
    (rfl :
      build demoCollab "dev" EntryList.nil demoPages =
        ((build demoCollab "dev" EntryList.nil demoPages).1, none))
    (rfl :
      build demoCollab "dev" EntryList.nil demoPages =
        ((build demoCollab "dev" EntryList.nil demoPages).1, none))).1 rfl

/-- C6: no path an output write touches — destination or source, under assets
or pages — contains a component beginning with a dot, so hidden files and
directories are never copied, never generated from, and never recursed into. -/
theorem c6_hidden_entries_excluded (c : Collab) (env : String) (assets pages : EntryList) :
    ∀ w ∈ (build c env assets pages).1, ∀ p ∈ eventPaths w, ∀ comp ∈ p,
      isDotName comp = false := by
  intro w hw p hp comp hcomp
  exact (build_trace_good c env assets pages).1 w hw p hp comp hcomp

/-- C6 witness: applied to a concrete write of a concrete build. -/
theorem c6_witness : isDotName "index.html" = false :=
  c6_hidden_entries_excluded demoCollab "dev" EntryList.nil demoPages
    (WriteEvent.pageWrite ["index.html"] ["index.md"] "Home|dev|-|<hi>")
    (by decide) ["index.html"] (by decide) "index.html" (by decide)

/-- C7: no write derived from the pages tree has a `notes.md` source, every
generated page comes from an `index.md` source, and on success the manifest
digest is a function of exactly the generated page contents — so a `notes.md`
file is never rendered, never copied, and feeds nothing into the hash
accumulator. -/
theorem c7_notes_md_excluded (c : Collab) (env : String) (assets pages : EntryList) :
    (∀ w ∈ (build c env assets pages).1, pagesSrcName w ≠ some NOTES_MD) ∧
    (∀ d s cont, WriteEvent.pageWrite d s cont ∈ (build c env assets pages).1 →
       s.getLast? = some INDEX_MD) ∧
    ((build c env assets pages).2 = none →
       digestsOf (build c env assets pages).1 =
         [concatChunks (pageContents (build c env assets pages).1)]) := by
  have hg := (build_trace_good c env assets pages).2
  refine ⟨fun w hw => (hg w hw).1, ?_, ?_⟩
  · intro d s cont hmem
    exact (hg _ hmem).2 d s cont rfl
  · intro hnone
    have hb2 : build c env assets pages = ((build c env assets pages).1, none) := by
      cases hb : build c env assets pages with
      | mk w oe =>
          rw [hb] at hnone
          simp only at hnone
          rw [hnone]
    exact build_digest_char hb2

/-- C7 witness: applied to a concrete write of a concrete build. -/
theorem c7_witness :
    pagesSrcName (WriteEvent.pageWrite ["index.html"] ["index.md"] "Home|dev|-|<hi>") ≠
      some NOTES_MD :=
  (c7_notes_md_excluded demoCollab "dev" EntryList.nil demoPages).1
    (WriteEvent.pageWrite ["index.html"] ["index.md"] "Home|dev|-|<hi>") (by decide)

/-- C8: the claim is contradicted by the code. `run(port)` evaluates
`build()`, but the imported `build` requires one positional argument
(`env: Env`), so the call raises `TypeError` before any build work happens:
no build completes, the watchers never start, and the serve loop is never
reached, for every port. -/
theorem c8_dev_server_build_call_raises :
    ∀ port : Nat, devRun port = ([], some DevError.typeErrorMissingArg) ∧
      DevEvent.buildCompleted ∉ (devRun port).1 ∧
      DevEvent.serveStarted port ∉ (devRun port).1 := by
  intro port
  refine ⟨rfl, ?_, ?_⟩ <;> simp [devRun, callBuild, runBuildCallArgCount, buildParamCount]

/-- C9: in every state reachable from cold start, a watcher inside its
rebuild holds the process-wide lock, at most one watcher is rebuilding at any
instant (overlapping change events therefore rebuild serially), and every
detected change batch is accounted for by exactly one pending, in-progress or
completed rebuild of its watcher. -/
theorem c9_rebuild_mutual_exclusion {s : DevState} (h : DevReach s) :
    (∀ w, s.rebuilding w = true → s.lockHolder = some w) ∧
    (∀ w w', s.rebuilding w = true → s.rebuilding w' = true → w = w') ∧
    (∀ w, s.detected w = s.pending w + s.completed w +
      (if s.rebuilding w = true then 1 else 0)) := by
  obtain ⟨h1, h2⟩ := dev_lock_inv h
  refine ⟨h1, ?_, h2⟩
  intro w w' hw hw'
  have e1 := h1 w hw
  have e2 := h1 w' hw'
  rw [e1] at e2
  injection e2

/-- C9 witness: the invariant at a concrete reachable state in which the
build watcher has detected a change and acquired the lock. -/
theorem c9_witness :
    (∀ w, devS2.rebuilding w = true → devS2.lockHolder = some w) ∧
    (∀ w w', devS2.rebuilding w = true → devS2.rebuilding w' = true → w = w') ∧
    (∀ w, devS2.detected w = devS2.pending w + devS2.completed w +
      (if devS2.rebuilding w = true then 1 else 0)) :=
  c9_rebuild_mutual_exclusion
    (DevReach.step
      (DevReach.step DevReach.init (DevStep.detect initDevState WatcherId.buildW))
      (DevStep.acquire devS1 WatcherId.buildW rfl (by decide) rfl))

/-- C10 (amended): under the precondition that the input is non-empty and a
closing delimiter line follows the first line, `_parse_front_matter` never
fails with an out-of-range index access; an empty input fails with the
out-of-range access; an input whose opening delimiter is never followed by a
closing delimiter fails with the out-of-range access PROVIDED every
subsequent line contains a colon (a colon-free line fails with the
missing-separator `ValueError` first, not the index error). -/
theorem c10_parse_bounds_amended
    (p : List String) (md : String) (hne : md ≠ "")
    (hdelim : FRONT_MATTER_DELIM ∈ (splitlines md).tail) :
    parseFrontMatter p md ≠ .error .indexOutOfRange ∧
    parseFrontMatter p "" = .error .indexOutOfRange ∧
    (∀ (q : List String) (md' : String) (rest : List String),
       splitlines md' = FRONT_MATTER_DELIM :: rest → FRONT_MATTER_DELIM ∉ rest →
       (∀ l ∈ rest, (splitFirstColon l).isSome) →
       parseFrontMatter q md' = .error .indexOutOfRange) := by
  refine ⟨?_, rfl, ?_⟩
  · cases hsp : splitlines md with
    | nil => exact absurd hsp (splitlines_ne_nil hne)
    | cons l0 rest =>
        rw [hsp] at hdelim
        simp only [List.tail_cons] at hdelim
        by_cases hl0 : l0 = FRONT_MATTER_DELIM
        · subst hl0
          rw [parseFrontMatter_eq_delim hsp]
          cases hloop : parseFMLoop [] rest with
          | error e =>
              intro hcontra
              injection hcontra with he
              exact parseFMLoop_no_oob rest [] hdelim (by rw [hloop, he])
          | ok pr =>
              simp
        · rw [parseFrontMatter_bad_first hsp hl0]
          simp
  · intro q md' rest hsp' hnd hcol
    rw [parseFrontMatter_eq_delim hsp', parseFMLoop_oob rest [] hnd hcol]

/-- C10 counterexample: an input whose opening delimiter is never followed by
a closing delimiter, on which the scanner fails with the missing-separator
`ValueError` — not with an out-of-range index access as the claim states. -/
theorem c10_counterexample :
    (splitlines "---\nnocolon" = [FRONT_MATTER_DELIM, "nocolon"] ∧
      FRONT_MATTER_DELIM ∉ ["nocolon"]) ∧
    parseFrontMatter ["pages", "index.md"] "---\nnocolon" =
      .error (.noColonInLine "nocolon") ∧
    parseFrontMatter ["pages", "index.md"] "---\nnocolon" ≠ .error .indexOutOfRange := by
  refine ⟨⟨?_, ?_⟩, ?_, ?_⟩ <;> decide

/-- C10 witness: the amended claim at concrete inputs. -/
theorem c10_witness :
    parseFrontMatter ["pages", "index.md"] "---\na: b\n---\nbody" ≠
      .error BuildError.indexOutOfRange ∧
    parseFrontMatter ["pages", "index.md"] "" = .error BuildError.indexOutOfRange :=
  ⟨(c10_parse_bounds_amended ["pages", "index.md"] "---\na: b\n---\nbody"
      (by decide) (by decide)).1,
   (c10_parse_bounds_amended ["pages", "index.md"] "---\na: b\n---\nbody"
      (by decide) (by decide)).2.1⟩

end SiteBuild
